import Mathlib

/-!
Verification development for the Strategic Radar / Event Clock repository.

The repository contains two sibling single-page applications sharing one
algorithmic core:

* `src/index.tsx` — the "Event Clock" app: records are `EventItem`s, sessions
  are `ScanSession`s, the consolidated view is `masterEvents`, the targeted
  flag update is `updateEventGlobal`, and free-form date text is parsed by
  `parseEventDateInfo`.
* `src/unnamed/part_000` — the "Strategic Radar" app: records are `NewsItem`s,
  the consolidated view is `masterItems`, the targeted flag update is
  `updateItemGlobal`.

This file shallowly embeds the algorithmic core: JavaScript strings become
`List Char`, `Date` instants become naive minute counts on a fixed civil
(Gregorian) calendar, the ECMAScript `Map` becomes an insertion-ordered
association list, and the only host builtins treated as external collaborators
(`JSON.parse` and the generator call) become explicit parameters, exactly as
the specification's §6 treats them.

Modelling conventions, stated once:

* `String.prototype.toLowerCase` is modelled on the ASCII range (`jsLower`);
  non-ASCII characters are left unchanged.  Every claim touching case
  normalisation is stated over this alphabet.
* A JavaScript `Date` built from `(year, month, day, hour, minute)` is
  modelled as the total minute count
  `dateBase year month day * 1440 + hour * 60 + minute`, where `dateBase` is
  the proleptic Gregorian day number.  `Date` normalisation (day 39, hour 25,
  minute 99 …) is linear in each component, so this count is order- and
  arithmetic-faithful to `getTime()`.
* Optional boolean record fields (`addedToCalendar?`, `read?`) are modelled as
  `Bool` with `false` for `undefined`; the source only ever reads them for
  truthiness.
-/

namespace StrategicRadar

set_option maxRecDepth 8192

/-! ### ASCII character predicates and `toLowerCase` -/

/-- ASCII uppercase letter test (`A`–`Z`). -/
def isUpperAscii (c : Char) : Bool := 65 ≤ c.toNat && c.toNat ≤ 90

/-- ASCII lowercase letter test (`a`–`z`). -/
def isLowerAscii (c : Char) : Bool := 97 ≤ c.toNat && c.toNat ≤ 122

/-- ASCII digit test (`0`–`9`), the regex class `\d`. -/
def isDigitAscii (c : Char) : Bool := 48 ≤ c.toNat && c.toNat ≤ 57

/-- ASCII alphanumeric test. -/
def isAlnumAscii (c : Char) : Bool := isUpperAscii c || isLowerAscii c || isDigitAscii c

/-- The character class `[a-z0-9]` retained by the signature normalisation
regex `[^a-z0-9]`. -/
def isLowerAlnum (c : Char) : Bool := isLowerAscii c || isDigitAscii c

/-- Model of `String.prototype.toLowerCase`, restricted to ASCII: uppercase ASCII
letters are shifted by 32, all other characters are unchanged. -/
def jsLower (c : Char) : Char :=
  if isUpperAscii c then Char.ofNat (c.toNat + 32) else c

/-- Word-character class `\w` = `[A-Za-z0-9_]`, used by the `\b` boundary in
the day-of-month regex. -/
def isWordChar (c : Char) : Bool := isAlnumAscii c || c == '_'

/-- The ECMAScript whitespace class `\s`. -/
def isJsSpace (c : Char) : Bool :=
  let n := c.toNat
  n == 9 || n == 10 || n == 11 || n == 12 || n == 13 || n == 32 ||
  n == 160 || n == 0x1680 || (0x2000 ≤ n && n ≤ 0x200a) ||
  n == 0x2028 || n == 0x2029 || n == 0x202f || n == 0x205f ||
  n == 0x3000 || n == 0xfeff

/-- Model of `parseInt` applied to a matched digit string (the matches are always pure digit
runs, so no sign/NaN handling arises). An empty run yields 0, matching the
source's `minStr ? parseInt(minStr) : 0` in every case. -/
def digitsToNat (ds : List Char) : Nat :=
  ds.foldl (fun n c => n * 10 + (c.toNat - 48)) 0

/-- Does `pat` occur at the head of `s`? (prefix test for the substring
scanners below). -/
def seqStarts : List Char → List Char → Bool
  | [], _ => true
  | _ :: _, [] => false
  | p :: ps, c :: cs => p == c && seqStarts ps cs

/-- Model of `String.prototype.includes`: does `pat` occur contiguously in `s`? -/
def seqContains (pat : List Char) : List Char → Bool
  | [] => seqStarts pat []
  | c :: cs => seqStarts pat (c :: cs) || seqContains pat cs

/-! ### TextDateExtractor (`parseEventDateInfo`, src/index.tsx lines 54–136) -/

/-- The month-name table of `parseEventDateInfo`, in `Object.entries`
insertion order; the first name contained in the lower-cased text wins. -/
def monthsTable : List (List Char × Nat) :=
  [(("jan").data, 0), (("fév").data, 1), (("fev").data, 1), (("mar").data, 2),
   (("avr").data, 3), (("mai").data, 4), (("juin").data, 5), (("juil").data, 6),
   (("aoû").data, 7), (("aout").data, 7), (("sep").data, 8), (("oct").data, 9),
   (("nov").data, 10), (("déc").data, 11), (("dec").data, 11)]

/-- Step 1 of `parseEventDateInfo`: scan the month table for the first
abbreviation occurring in the cleaned text. -/
def findMonth (cs : List Char) : Option Nat :=
  (monthsTable.find? fun p => seqContains p.1 cs).map (·.2)

/-- After the leading digits of a time pattern: match `\s*(?:h|:)\s*(\d{0,2})`.
Returns the minute value and the number of characters consumed. -/
def matchSepAndMin (cs : List Char) : Option (Nat × Nat) :=
  let sp1 := cs.takeWhile isJsSpace
  let cs1 := cs.dropWhile isJsSpace
  match cs1 with
  | [] => none
  | c :: cs2 =>
    if c == 'h' || c == ':' then
      let sp2 := cs2.takeWhile isJsSpace
      let cs3 := cs2.dropWhile isJsSpace
      let ds := (cs3.takeWhile isDigitAscii).take 2
      some (digitsToNat ds, sp1.length + 1 + sp2.length + ds.length)
    else none

/-- Match the time regex `(\d{1,2})\s*(?:h|:)\s*(\d{0,2})` at the head of the
input: greedy one-or-two leading digits with the regex engine's backtracking
to one digit when the two-digit parse cannot complete.  Returns
`(hour, minute, matched length)`. -/
def matchTimeCore : List Char → Option (Nat × Nat × Nat)
  | [] => none
  | c1 :: rest1 =>
    if isDigitAscii c1 then
      match rest1 with
      | c2 :: rest2 =>
        if isDigitAscii c2 then
          match matchSepAndMin rest2 with
          | some (mn, len2) => some (digitsToNat [c1, c2], mn, 2 + len2)
          | none =>
            match matchSepAndMin rest1 with
            | some (mn, len2) => some (digitsToNat [c1], mn, 1 + len2)
            | none => none
        else
          match matchSepAndMin rest1 with
          | some (mn, len2) => some (digitsToNat [c1], mn, 1 + len2)
          | none => none
      | [] => none
    else none

/-- Left-to-right global scan for the time regex, resuming after each match;
`fuel` bounds the recursion and every call site supplies the input length,
which always suffices because each step consumes at least one character. -/
def timeMatchesAux : Nat → List Char → List (Nat × Nat)
  | 0, _ => []
  | _ + 1, [] => []
  | fuel + 1, c :: cs =>
    match matchTimeCore (c :: cs) with
    | some (hr, mn, len) => (hr, mn) :: timeMatchesAux fuel (cs.drop (len - 1))
    | none => timeMatchesAux fuel cs

/-- Model of `cleanStr.matchAll(timeRegex)`: all time-pattern matches, left to
right, resuming after each match. -/
def timeMatchesFrom (cs : List Char) : List (Nat × Nat) :=
  timeMatchesAux cs.length cs

/-- Fuelled global replace for the time regex (same scan as
`timeMatchesAux`). -/
def maskTimesAux : Nat → List Char → List Char
  | 0, rest => rest
  | _ + 1, [] => []
  | fuel + 1, c :: cs =>
    match matchTimeCore (c :: cs) with
    | some (_, _, len) => 'T' :: 'I' :: 'M' :: 'E' :: maskTimesAux fuel (cs.drop (len - 1))
    | none => c :: maskTimesAux fuel cs

/-- Model of `cleanStr.replace(timeRegex, "TIME")`: mask every time pattern
with the placeholder `TIME` before searching for a day of month. -/
def maskTimes (cs : List Char) : List Char :=
  maskTimesAux cs.length cs

/-- First match of `\b([1-3][0-9]|[1-9])\b` on the masked text; `prev` is the
character before the current position (for the leading word boundary). -/
def findDay (prev : Option Char) : List Char → Option Nat
  | [] => none
  | c :: cs =>
    let boundaryBefore := match prev with
      | none => true
      | some p => !(isWordChar p)
    if boundaryBefore then
      match cs with
      | d :: _rest =>
        if (49 ≤ c.toNat && c.toNat ≤ 51) && isDigitAscii d &&
            (match _rest with | [] => true | e :: _ => !(isWordChar e)) then
          some (digitsToNat [c, d])
        else if (49 ≤ c.toNat && c.toNat ≤ 57) && !(isWordChar d) then
          some (digitsToNat [c])
        else findDay (some c) cs
      | [] =>
        if 49 ≤ c.toNat && c.toNat ≤ 57 then some (digitsToNat [c])
        else none
    else findDay (some c) cs

/-! ### Civil calendar arithmetic (the `Date` model) -/

/-- Gregorian leap-year test. -/
def isLeap (y : Nat) : Bool := (y % 4 == 0 && y % 100 != 0) || y % 400 == 0

/-- Days in the proleptic Gregorian years `[0, y)`. -/
def daysBeforeYear (y : Nat) : Nat :=
  365 * y + (y + 3) / 4 - (y + 99) / 100 + (y + 399) / 400

/-- Days before JavaScript month index `m` (0 = January) within a year. -/
def monthOffset (leap : Bool) (m : Nat) : Nat :=
  [0, 31, 59, 90, 120, 151, 181, 212, 243, 273, 304, 334].getD m 0 +
    (if leap && 2 ≤ m then 1 else 0)

/-- Day number of `new Date(y, m, d)` (midnight): month indices ≥ 12 roll into
later years and the day-of-month is a free linear offset, exactly as `Date`
normalises its arguments. -/
def dateBase (y m d : Nat) : Nat :=
  let y' := y + m / 12
  let m' := m % 12
  daysBeforeYear y' + monthOffset (isLeap y') m' + (d - 1)

/-- The current date as read by `parseEventDateInfo` via `now.getFullYear()`,
`now.getMonth()` and `now.getDate()`. -/
structure Now where
  year : Nat
  month : Nat
  date : Nat
deriving DecidableEq, Repr

/-- The local variables of `parseEventDateInfo` just before the two `Date`
values are constructed. -/
structure DateComponents where
  month : Nat
  year : Nat
  day : Nat
  startHour : Nat
  startMin : Nat
  endTime : Option (Nat × Nat)
deriving DecidableEq, Repr

/-- Steps 1–3 of `parseEventDateInfo`: month lookup, day search on the
time-masked text with the "tomorrow" fallback, year rollover, and the time
matches, with the 09:00 default start. -/
def parseComponents (now : Now) (dateStr : String) : DateComponents :=
  let cleanStr := dateStr.data.map jsLower
  let month := (findMonth cleanStr).getD now.month
  let masked := maskTimes cleanStr
  let day := (findDay none masked).getD (now.date + 1)
  let year := if month < now.month then now.year + 1 else now.year
  let times := timeMatchesFrom cleanStr
  let start := times.headD (9, 0)
  let endT := match times with
    | _ :: t :: _ => some t
    | _ => none
  { month := month, year := year, day := day,
    startHour := start.1, startMin := start.2, endTime := endT }

/-- Model of `parseEventDateInfo`: the returned `{start, end}` pair as total minute
counts.  The end branch mirrors the source: with an explicit end time the end
instant is built on the unnormalised `(year, month, day)` base and pushed one
day forward when it falls strictly before the start; otherwise
`setHours(startDate.getHours() + 2, startDate.getMinutes())` is applied to the
midnight base. -/
def parseEventDateInfo (now : Now) (dateStr : String) : Nat × Nat :=
  let c := parseComponents now dateStr
  let base := dateBase c.year c.month c.day
  let startDate := base * 1440 + c.startHour * 60 + c.startMin
  let endDate :=
    match c.endTime with
    | some (eh, em) =>
      let e0 := base * 1440 + eh * 60 + em
      if e0 < startDate then e0 + 1440 else e0
    | none => base * 1440 + ((startDate / 60) % 24 + 2) * 60 + startDate % 60
  (startDate, endDate)

/-! ### Records and signatures -/

/-- Model of `EventItem` (src/index.tsx lines 31–40).  `addedToCalendar?` is the
mutable user-state flag, `false` standing for `undefined`. -/
structure EventItem where
  title : String
  date : String
  location : String
  price : String
  description : String
  url : String
  tags : List String
  addedToCalendar : Bool
deriving DecidableEq, Repr

/-- One side of the signature normalisation:
`s.toLowerCase().replace(/[^a-z0-9]/g, "")`. -/
def cleanField (s : String) : String :=
  String.mk ((s.data.map jsLower).filter isLowerAlnum)

/-- Model of `getEventSignature` (src/index.tsx lines 142–146): sanitised title and
date joined by an underscore. -/
def getEventSignature (event : EventItem) : String :=
  cleanField event.title ++ "_" ++ cleanField event.date

/-- Model of `CriticalityLevel` (src/unnamed/part_000 line 31). -/
inductive CriticalityLevel where
  | HIGH
  | MEDIUM
  | LOW
deriving DecidableEq, Repr

/-- Model of `CategoryType` (src/unnamed/part_000 line 32). -/
inductive CategoryType where
  | FRANCE_ADMIN
  | WORLD_MACRO
  | TECH_INNOVATION
deriving DecidableEq, Repr

/-- Model of `NewsItem` (src/unnamed/part_000 lines 34–44); `read?` is the user-state
flag, `false` standing for `undefined`. -/
structure NewsItem where
  headline : String
  date : String
  category : CategoryType
  criticality : CriticalityLevel
  impact_analysis : String
  suggested_action : String
  source : String
  url : String
  read : Bool
deriving DecidableEq, Repr

/-- Model of `getNewsSignature` (src/unnamed/part_000 lines 92–94): sanitised
headline only. -/
def getNewsSignature (item : NewsItem) : String :=
  cleanField item.headline

/-! ### Sessions -/

namespace EventApp

/-- Model of `ScanSession` of the Event Clock app (src/index.tsx lines 42–46). -/
structure ScanSession where
  id : Nat
  dateStr : String
  events : List EventItem
deriving DecidableEq, Repr

end EventApp

namespace RadarApp

/-- Model of `ScanSession` of the Strategic Radar app (src/unnamed/part_000
lines 46–50). -/
structure ScanSession where
  id : Nat
  dateStr : String
  items : List NewsItem
deriving DecidableEq, Repr

end RadarApp

/-! ### The ECMAScript `Map` model

An insertion-ordered association list: `set` on an absent key appends, `set`
on a present key overwrites the value in place. -/

/-- Model of `Map.prototype.get`. -/
def lookupA {α : Type} : List (String × α) → String → Option α
  | [], _ => none
  | (k, v) :: m, s => if k = s then some v else lookupA m s

/-- Model of `Map.prototype.set`. -/
def setA {α : Type} : List (String × α) → String → α → List (String × α)
  | [], k, v => [(k, v)]
  | (k', v') :: m, k, v =>
    if k' = k then (k, v) :: m else (k', v') :: setA m k v

/-! ### The two consolidation folds, generically

Both apps fold their full session history into a `Map` keyed by signature.
They differ in iteration order and per-collision rule; both are stated over an
abstract record type `α` with a signature function and a boolean user-state
flag accessed through `getF`/`setF`. -/

section Merge

variable {σ α : Type}

/-- Per-record step of `masterEvents` (src/index.tsx lines 588–605): a fresh
signature is inserted as-is; a collision keeps the incoming record's content
and ORs the flag. -/
def stepAsc (sig : α → String) (getF : α → Bool) (setF : α → Bool → α)
    (m : List (String × α)) (evt : α) : List (String × α) :=
  match lookupA m (sig evt) with
  | some existing => setA m (sig evt) (setF evt (getF existing || getF evt))
  | none => setA m (sig evt) evt

/-- Per-record step of `masterItems` (src/unnamed/part_000 lines 452–465): a
fresh signature is inserted as-is; on collision the existing (newer) record is
kept, upgraded to `read := true` when the older copy was read and the kept one
was not. -/
def stepDesc (sig : α → String) (getF : α → Bool) (setF : α → Bool → α)
    (m : List (String × α)) (item : α) : List (String × α) :=
  match lookupA m (sig item) with
  | none => setA m (sig item) item
  | some existing =>
    if getF item && !(getF existing) then setA m (sig item) (setF existing true)
    else m

/-- Model of `[...history].sort((a, b) => a.id - b.id)`: oldest to newest. -/
def sortedAsc (sid : σ → Nat) (history : List σ) : List σ :=
  List.insertionSort (fun a b => sid a ≤ sid b) history

/-- Model of `[...history].sort((a, b) => b.id - a.id)`: newest to oldest. -/
def sortedDesc (sid : σ → Nat) (history : List σ) : List σ :=
  List.insertionSort (fun a b => sid b ≤ sid a) history

/-- The `uniqueMap` accumulator of `masterEvents`: fold every record of every
session, oldest session first. -/
def mergeAsc (sid : σ → Nat) (items : σ → List α) (sig : α → String)
    (getF : α → Bool) (setF : α → Bool → α) (history : List σ) :
    List (String × α) :=
  (sortedAsc sid history).foldl
    (fun m sess => (items sess).foldl (stepAsc sig getF setF) m) []

/-- The `uniqueMap` accumulator of `masterItems`: fold every record of every
session, newest session first. -/
def mergeDesc (sid : σ → Nat) (items : σ → List α) (sig : α → String)
    (getF : α → Bool) (setF : α → Bool → α) (history : List σ) :
    List (String × α) :=
  (sortedDesc sid history).foldl
    (fun m sess => (items sess).foldl (stepDesc sig getF setF) m) []

end Merge

namespace EventApp

/-- Flag accessors of `EventItem` used by the generic folds. -/
def getFlag (e : EventItem) : Bool := e.addedToCalendar

/-- Write the `addedToCalendar` flag, i.e. `{ ...e, addedToCalendar: b }`. -/
def setFlag (e : EventItem) (b : Bool) : EventItem := { e with addedToCalendar := b }

/-- The populated `uniqueMap` of `masterEvents` (src/index.tsx
lines 581–605). -/
def uniqueMap (history : List ScanSession) : List (String × EventItem) :=
  mergeAsc (·.id) (·.events) getEventSignature getFlag setFlag history

/-- Model of `masterEvents` (src/index.tsx lines 581–631): merge, sort by parsed start
instant, optionally hide events starting before yesterday's midnight. -/
def masterEvents (now : Now) (hidePastEvents : Bool)
    (history : List ScanSession) : List EventItem :=
  let allEvents := (uniqueMap history).map Prod.snd
  let sorted := List.insertionSort
    (fun a b => (parseEventDateInfo now a.date).1 ≤ (parseEventDateInfo now b.date).1)
    allEvents
  if hidePastEvents then
    sorted.filter fun e =>
      dateBase now.year now.month now.date * 1440 - 1440 ≤ (parseEventDateInfo now e.date).1
  else sorted

/-- Model of `updateEventGlobal` (src/index.tsx lines 407–426): recompute the
signature and overwrite the flag of every matching record in every
session. -/
def updateEventGlobal (event : EventItem) (added : Bool)
    (history : List ScanSession) : List ScanSession :=
  history.map fun session =>
    if session.events.any
        (fun e => getEventSignature e == getEventSignature event) then
      { session with
        events := session.events.map fun e =>
          if getEventSignature e == getEventSignature event then
            { e with addedToCalendar := added }
          else e }
    else session

end EventApp

namespace RadarApp

/-- Flag accessors of `NewsItem` used by the generic folds. -/
def getFlag (n : NewsItem) : Bool := n.read

/-- Write the `read` flag, i.e. `{ ...n, read: b }`. -/
def setFlag (n : NewsItem) (b : Bool) : NewsItem := { n with read := b }

/-- The populated `uniqueMap` of `masterItems` (src/unnamed/part_000
lines 447–465). -/
def uniqueMap (history : List ScanSession) : List (String × NewsItem) :=
  mergeDesc (·.id) (·.items) getNewsSignature getFlag setFlag history

/-- Model of `masterItems` (src/unnamed/part_000 lines 447–475): merge newest-first
and optionally keep only HIGH-criticality items; no chronological sort is
performed. -/
def masterItems (onlyHighPriority : Bool) (history : List ScanSession) :
    List NewsItem :=
  let allItems := (uniqueMap history).map Prod.snd
  if onlyHighPriority then
    allItems.filter fun i => i.criticality == CriticalityLevel.HIGH
  else allItems

/-- Model of `updateItemGlobal` (src/unnamed/part_000 lines 275–291). -/
def updateItemGlobal (item : NewsItem) (read : Bool)
    (history : List ScanSession) : List ScanSession :=
  history.map fun session =>
    if session.items.any
        (fun e => getNewsSignature e == getNewsSignature item) then
      { session with
        items := session.items.map fun e =>
          if getNewsSignature e == getNewsSignature item then
            { e with read := read }
          else e }
    else session

end RadarApp

/-! ### Scan result extraction (`scanEvents` / `scanRadar`)

`JSON.parse` is a host builtin, modelled as an explicit parameter
`jp : String → Option (List α)` (`none` = the parse threw); the generator
call is an `Option String` (`none` = transport failure).  The extraction
regexes and the bracket fallback are modelled concretely. -/

/-- The suffix of `s` after the first occurrence of `marker`, if any. -/
def findAfter (marker : List Char) : List Char → Option (List Char)
  | [] => if seqStarts marker [] then some [] else none
  | c :: t =>
    if seqStarts marker (c :: t) then some ((c :: t).drop marker.length)
    else findAfter marker t

/-- The prefix of `s` before the first occurrence of `marker`, if any. -/
def upToFirst (marker : List Char) : List Char → Option (List Char)
  | [] => if seqStarts marker [] then some [] else none
  | c :: t =>
    if seqStarts marker (c :: t) then some []
    else (upToFirst marker t).map (c :: ·)

/-- Group 1 of `/```json\n([\s\S]*?)\n```/`: the lazily-matched interior of
the first fenced `json` block that has a closing fence. -/
def fencedJson (text : List Char) : Option (List Char) :=
  (findAfter (("```json\n").data) text).bind (upToFirst (("\n```").data))

/-- Group 1 of `/```([\s\S]*?)```/`: the interior of the first generic fenced
block. -/
def fencedAny (text : List Char) : Option (List Char) :=
  (findAfter (("```").data) text).bind (upToFirst (("```").data))

/-- The `jsonString` the scan handlers try to parse first: the fenced-block
interior when either fence regex matches, otherwise the whole response. -/
def extractJsonCandidate (text : List Char) : List Char :=
  match fencedJson text with
  | some inner => inner
  | none =>
    match fencedAny text with
    | some inner => inner
    | none => text

/-- Model of `String.prototype.indexOf` for a single character. -/
def indexOfChar (c : Char) : List Char → Option Nat
  | [] => none
  | x :: xs =>
    if x == c then some 0 else (indexOfChar c xs).map (· + 1)

/-- Model of `String.prototype.lastIndexOf` for a single character. -/
def lastIndexOfChar (c : Char) (s : List Char) : Option Nat :=
  (indexOfChar c s.reverse).map (fun i => s.length - 1 - i)

/-- Model of `String.prototype.substring`: clamps both arguments to the string length
and swaps them when start exceeds end. -/
def jsSubstring (s : List Char) (a b : Nat) : List Char :=
  let a' := min a s.length
  let b' := min b s.length
  ((s.drop (min a' b')).take (max a' b' - min a' b'))

/-- The full coercion pipeline of `scanEvents`/`scanRadar`: parse the fenced
or whole text; if that throws, parse the first-`[`-to-last-`]` substring of
the raw response; `none` when both strategies throw or no brackets exist. -/
def coerceItems {α : Type} (jp : String → Option (List α)) (textResponse : List Char) :
    Option (List α) :=
  match jp (String.mk (extractJsonCandidate textResponse)) with
  | some arr => some arr
  | none =>
    match indexOfChar '[' textResponse, lastIndexOfChar ']' textResponse with
    | some arrayStart, some arrayEnd =>
      jp (String.mk (jsSubstring textResponse arrayStart (arrayEnd + 1)))
    | _, _ => none

/-- Outcome of one scan: the stored history afterwards and whether the error
path was taken. -/
structure ScanOutcome (σ : Type) where
  history : List σ
  errored : Bool
deriving DecidableEq, Repr

/-- The session-committing skeleton shared by `scanEvents` (src/index.tsx
lines 447–542) and `scanRadar` (src/unnamed/part_000 lines 309–413): a failed
generator call, a failed coercion, or an empty array reach the `catch` block
and leave the stored history untouched; a non-empty array prepends one new
session. -/
def scanModel {α σ : Type} (jp : String → Option (List α)) (mkSession : List α → σ)
    (gen : Option String) (prior : List σ) : ScanOutcome σ :=
  match gen with
  | none => ⟨prior, true⟩
  | some textResponse =>
    match coerceItems jp textResponse.data with
    | none => ⟨prior, true⟩
    | some parsed =>
      if parsed.length > 0 then ⟨mkSession parsed :: prior, false⟩
      else ⟨prior, true⟩

namespace EventApp

/-- Model of `scanEvents`, with the generator response and the fresh session's
identity as explicit inputs. -/
def scanEvents (jp : String → Option (List EventItem)) (newId : Nat)
    (newDateStr : String) (gen : Option String) (prior : List ScanSession) :
    ScanOutcome ScanSession :=
  scanModel jp (fun evs => ⟨newId, newDateStr, evs⟩) gen prior

end EventApp

namespace RadarApp

/-- Model of `scanRadar`, with the generator response and the fresh session's identity
as explicit inputs. -/
def scanRadar (jp : String → Option (List NewsItem)) (newId : Nat)
    (newDateStr : String) (gen : Option String) (prior : List ScanSession) :
    ScanOutcome ScanSession :=
  scanModel jp (fun its => ⟨newId, newDateStr, its⟩) gen prior

end RadarApp

/-! ### Statement helpers -/

/-- Two strings that "differ only in letter case and in non-alphanumeric
characters": dropping every non-alphanumeric character and folding case
leaves the same character sequence. -/
def caseFoldAlnum (s : String) : List Char :=
  (s.data.filter isAlnumAscii).map jsLower

/-- Equality of every `EventItem` field except the user-state flag. -/
def contentEq (a b : EventItem) : Prop :=
  a.title = b.title ∧ a.date = b.date ∧ a.location = b.location ∧
  a.price = b.price ∧ a.description = b.description ∧ a.url = b.url ∧
  a.tags = b.tags

/-- Equality of every `NewsItem` field except the user-state flag. -/
def newsContentEq (a b : NewsItem) : Prop :=
  a.headline = b.headline ∧ a.date = b.date ∧ a.category = b.category ∧
  a.criticality = b.criticality ∧ a.impact_analysis = b.impact_analysis ∧
  a.suggested_action = b.suggested_action ∧ a.source = b.source ∧
  a.url = b.url

namespace EventApp

/-- The logical OR of the `addedToCalendar` flag over every record of every
session whose signature is `s`. -/
def flagOR (history : List ScanSession) (s : String) : Bool :=
  history.any fun sess =>
    sess.events.any fun r => (getEventSignature r == s) && r.addedToCalendar

end EventApp

namespace RadarApp

/-- The logical OR of the `read` flag over every record of every session
whose signature is `s`. -/
def flagOR (history : List ScanSession) (s : String) : Bool :=
  history.any fun sess =>
    sess.items.any fun r => (getNewsSignature r == s) && r.read

end RadarApp

/-- One step of the per-signature trace of the `masterEvents` fold: the value
the map holds under a fixed signature after one more record with that
signature is processed. -/
def optAsc {α : Type} (getF : α → Bool) (setF : α → Bool → α)
    (p : Option α) (x : α) : Option α :=
  some (match p with
    | none => x
    | some existing => setF x (getF existing || getF x))

/-- One step of the per-signature trace of the `masterItems` fold. -/
def optDesc {α : Type} (getF : α → Bool) (setF : α → Bool → α)
    (p : Option α) (x : α) : Option α :=
  some (match p with
    | none => x
    | some existing =>
      if getF x && !(getF existing) then setF existing true else existing)

/-! ### Sample data for the closed witnesses -/

/-- A fixed reference date (15 October 2025) for the closed instances. -/
def refNow : Now := ⟨2025, 9, 15⟩

/-- Sample event builder. -/
def mkEvent (title date description : String) (flag : Bool) : EventItem :=
  ⟨title, date, "Paris", "Gratuit", description, "https://x", ["Tech"], flag⟩

/-- Sample news builder. -/
def mkNews (headline date impact : String) (crit : CriticalityLevel)
    (flag : Bool) : NewsItem :=
  ⟨headline, date, CategoryType.TECH_INNOVATION, crit, impact, "a", "s", "u", flag⟩

/-- Sample event session: older scan. -/
def sampleSessionA : EventApp.ScanSession :=
  ⟨1, "lundi", [mkEvent "Pitch Night!!" "24 oct, 22h-02h" "old text" true,
                mkEvent "Salon" "15 nov" "salon" false]⟩

/-- Sample event session: newer scan, re-observing the pitch night. -/
def sampleSessionB : EventApp.ScanSession :=
  ⟨2, "mardi", [mkEvent "pitch night" "24 oct, 22h-02h" "new text" false]⟩

/-- Sample event history (stored newest first, as the app prepends). -/
def sampleHistory : List EventApp.ScanSession := [sampleSessionB, sampleSessionA]

/-- Sample news session: older scan. -/
def sampleRadarA : RadarApp.ScanSession :=
  ⟨1, "lundi", [mkNews "Alpha" "25 oct" "old impact" CriticalityLevel.HIGH true]⟩

/-- Sample news session: newer scan. -/
def sampleRadarB : RadarApp.ScanSession :=
  ⟨2, "mardi", [mkNews "Alpha!" "25 oct" "new impact" CriticalityLevel.LOW false,
                mkNews "Beta" "24 oct" "beta impact" CriticalityLevel.HIGH false]⟩

/-- Sample news history. -/
def sampleRadarHistory : List RadarApp.ScanSession := [sampleRadarB, sampleRadarA]

/-! ## Lemmas

### Character-level facts about the signature normalisation -/

theorem charOfNat_toNat {n : Nat} (h1 : 65 ≤ n) (h2 : n ≤ 90) :
    (Char.ofNat (n + 32)).toNat = n + 32 := by
  have hv : (n + 32).isValidChar := Or.inl (by omega)
  simp [Char.ofNat, hv, Char.toNat, Char.ofNatAux, UInt32.toNat,
    BitVec.toNat_ofNatLt]

theorem toNat_jsLower_of_upper {c : Char} (h : isUpperAscii c = true) :
    (jsLower c).toNat = c.toNat + 32 := by
  have hb : 65 ≤ c.toNat ∧ c.toNat ≤ 90 := by
    simpa [isUpperAscii, Bool.and_eq_true, decide_eq_true_eq] using h
  simp only [jsLower, h, if_true]
  exact charOfNat_toNat hb.1 hb.2

theorem jsLower_of_not_upper {c : Char} (h : isUpperAscii c = false) :
    jsLower c = c := by
  simp [jsLower, h]

theorem isLowerAlnum_jsLower (c : Char) :
    isLowerAlnum (jsLower c) = isAlnumAscii c := by
  cases hu : isUpperAscii c with
  | true =>
    have ht := toNat_jsLower_of_upper hu
    have hb : 65 ≤ c.toNat ∧ c.toNat ≤ 90 := by
      simpa [isUpperAscii, Bool.and_eq_true, decide_eq_true_eq] using hu
    rw [Bool.eq_iff_iff]
    simp only [isLowerAlnum, isAlnumAscii, isLowerAscii, isDigitAscii,
      isUpperAscii, ht, Bool.or_eq_true, Bool.and_eq_true, decide_eq_true_eq]
    omega
  | false =>
    rw [jsLower_of_not_upper hu, Bool.eq_iff_iff]
    simp only [isLowerAlnum, isAlnumAscii, isLowerAscii, isDigitAscii, hu,
      Bool.or_eq_true, Bool.and_eq_true, decide_eq_true_eq, Bool.false_or]

theorem filter_lower_eq_map_filter (l : List Char) :
    (l.map jsLower).filter isLowerAlnum = (l.filter isAlnumAscii).map jsLower := by
  induction l with
  | nil => rfl
  | cons c cs ih =>
    simp only [List.map_cons, List.filter_cons, isLowerAlnum_jsLower]
    cases h : isAlnumAscii c with
    | true => simp [ih]
    | false => simp [ih]

/-- The signature normalisation only sees the case-folded alphanumeric
subsequence of a field. -/
theorem cleanField_eq_caseFold (s : String) :
    cleanField s = String.mk (caseFoldAlnum s) := by
  simp [cleanField, caseFoldAlnum, filter_lower_eq_map_filter]

/-! ### Association-list (`Map`) lemmas -/

theorem lookupA_setA_self {α : Type} (m : List (String × α)) (k : String) (v : α) :
    lookupA (setA m k v) k = some v := by
  induction m with
  | nil => simp [setA, lookupA]
  | cons p m ih =>
    by_cases h : p.1 = k
    · simp [setA, h, lookupA]
    · simp [setA, h, lookupA, ih]

theorem lookupA_setA_ne {α : Type} (m : List (String × α)) {k k' : String} (v : α)
    (h : k' ≠ k) : lookupA (setA m k v) k' = lookupA m k' := by
  induction m with
  | nil => simp [setA, lookupA, Ne.symm h]
  | cons p m ih =>
    by_cases hp : p.1 = k
    · simp only [setA, if_pos hp, lookupA]
      rw [if_neg (Ne.symm h), if_neg (hp ▸ Ne.symm h)]
    · simp only [setA, if_neg hp, lookupA, ih]

theorem mem_keys_setA {α : Type} (m : List (String × α)) (k x : String) (v : α) :
    x ∈ (setA m k v).map Prod.fst ↔ x ∈ m.map Prod.fst ∨ x = k := by
  induction m with
  | nil => simp [setA]
  | cons p m ih =>
    obtain ⟨pk, pv⟩ := p
    by_cases hp : pk = k
    · subst hp
      simp [setA]
      tauto
    · simp [setA, hp, ih]
      tauto

theorem nodup_keys_setA {α : Type} {m : List (String × α)} (k : String) (v : α)
    (h : (m.map Prod.fst).Nodup) : ((setA m k v).map Prod.fst).Nodup := by
  induction m with
  | nil => simp [setA]
  | cons p m ih =>
    simp only [List.map_cons, List.nodup_cons] at h
    by_cases hp : p.1 = k
    · simp only [setA, if_pos hp, List.map_cons, List.nodup_cons]
      exact ⟨hp ▸ h.1, h.2⟩
    · simp only [setA, if_neg hp, List.map_cons, List.nodup_cons]
      refine ⟨fun hmem => ?_, ih h.2⟩
      rcases (mem_keys_setA m k p.1 v).mp hmem with hin | heq
      · exact h.1 hin
      · exact hp heq

theorem lookupA_eq_of_mem {α : Type} {m : List (String × α)} {k : String} {v : α}
    (hn : (m.map Prod.fst).Nodup) (hm : (k, v) ∈ m) : lookupA m k = some v := by
  induction m with
  | nil => cases hm
  | cons p m ih =>
    simp only [List.map_cons, List.nodup_cons] at hn
    rcases List.mem_cons.mp hm with h | h
    · subst h; simp [lookupA]
    · have hk : p.1 ≠ k := by
        intro he
        exact hn.1 (he ▸ (List.mem_map.mpr ⟨(k, v), h, rfl⟩))
      simp [lookupA, hk, ih hn.2 h]

theorem mem_snd_of_mem {α : Type} {m : List (String × α)} {p : String × α}
    (h : p ∈ m) : p.2 ∈ m.map Prod.snd :=
  List.mem_map.mpr ⟨p, h, rfl⟩

/-! ### Generic list helpers -/

theorem any_map' {β γ : Type} (l : List β) (f : β → γ) (p : γ → Bool) :
    (l.map f).any p = l.any fun x => p (f x) := by
  induction l with
  | nil => rfl
  | cons x l ih => simp [ih]

theorem any_eq_of_perm {β : Type} {l₁ l₂ : List β} (h : l₁.Perm l₂) (f : β → Bool) :
    l₁.any f = l₂.any f := by
  rw [Bool.eq_iff_iff]
  simp only [List.any_eq_true]
  constructor
  · rintro ⟨x, hx, hfx⟩; exact ⟨x, h.mem_iff.mp hx, hfx⟩
  · rintro ⟨x, hx, hfx⟩; exact ⟨x, h.mem_iff.mpr hx, hfx⟩

/-! ### Per-signature characterisation of the two merge folds -/

section MergeLemmas

variable {σ α : Type} {sid : σ → Nat} {items : σ → List α} {sig : α → String}
variable {getF : α → Bool} {setF : α → Bool → α}

theorem lookupA_stepAsc_self {m : List (String × α)} {x : α} {s : String}
    (hx : sig x = s) :
    lookupA (stepAsc sig getF setF m x) s = optAsc getF setF (lookupA m s) x := by
  subst hx
  unfold stepAsc optAsc
  cases hl : lookupA m (sig x) with
  | none => simp [hl, lookupA_setA_self]
  | some ex => simp [hl, lookupA_setA_self]

theorem lookupA_stepAsc_ne {m : List (String × α)} {x : α} {s : String}
    (hx : sig x ≠ s) :
    lookupA (stepAsc sig getF setF m x) s = lookupA m s := by
  unfold stepAsc
  cases hl : lookupA m (sig x) with
  | none => exact lookupA_setA_ne m _ (Ne.symm hx)
  | some ex => exact lookupA_setA_ne m _ (Ne.symm hx)

theorem lookupA_stepDesc_self {m : List (String × α)} {x : α} {s : String}
    (hx : sig x = s) :
    lookupA (stepDesc sig getF setF m x) s = optDesc getF setF (lookupA m s) x := by
  subst hx
  unfold stepDesc optDesc
  cases hl : lookupA m (sig x) with
  | none => simp [hl, lookupA_setA_self]
  | some ex =>
    by_cases hc : (getF x && !(getF ex)) = true
    · simp [hl, hc, lookupA_setA_self]
    · simp only [Bool.not_eq_true] at hc
      simp [hl, hc]

theorem lookupA_stepDesc_ne {m : List (String × α)} {x : α} {s : String}
    (hx : sig x ≠ s) :
    lookupA (stepDesc sig getF setF m x) s = lookupA m s := by
  unfold stepDesc
  cases hl : lookupA m (sig x) with
  | none => exact lookupA_setA_ne m _ (Ne.symm hx)
  | some ex =>
    by_cases hc : (getF x && !(getF ex)) = true
    · simp only [hc, if_true]
      exact lookupA_setA_ne m _ (Ne.symm hx)
    · simp [hc]

theorem lookupA_foldl_stepAsc (l : List α) (m : List (String × α)) (s : String) :
    lookupA (l.foldl (stepAsc sig getF setF) m) s
      = (l.filter fun x => sig x == s).foldl (optAsc getF setF) (lookupA m s) := by
  induction l generalizing m with
  | nil => rfl
  | cons x l ih =>
    simp only [List.foldl_cons, List.filter_cons]
    by_cases hx : sig x = s
    · have hb : (sig x == s) = true := by simp [hx]
      rw [hb, if_pos rfl, ih, List.foldl_cons, lookupA_stepAsc_self hx]
    · have hb : (sig x == s) = false := by simp [hx]
      rw [hb, if_neg (by simp), ih, lookupA_stepAsc_ne hx]

theorem lookupA_foldl_stepDesc (l : List α) (m : List (String × α)) (s : String) :
    lookupA (l.foldl (stepDesc sig getF setF) m) s
      = (l.filter fun x => sig x == s).foldl (optDesc getF setF) (lookupA m s) := by
  induction l generalizing m with
  | nil => rfl
  | cons x l ih =>
    simp only [List.foldl_cons, List.filter_cons]
    by_cases hx : sig x = s
    · have hb : (sig x == s) = true := by simp [hx]
      rw [hb, if_pos rfl, ih, List.foldl_cons, lookupA_stepDesc_self hx]
    · have hb : (sig x == s) = false := by simp [hx]
      rw [hb, if_neg (by simp), ih, lookupA_stepDesc_ne hx]

theorem foldl_optAsc_some (heta : ∀ x : α, setF x (getF x) = x)
    (hget : ∀ (x : α) (b : Bool), getF (setF x b) = b)
    (hss : ∀ (x : α) (b b' : Bool), setF (setF x b) b' = setF x b') :
    ∀ (ms : List α) (v : α),
      ms.foldl (optAsc getF setF) (some v)
        = some (setF (ms.getLastD v) (getF v || ms.any getF)) := by
  intro ms
  induction ms with
  | nil => intro v; simp [heta]
  | cons y ms ih =>
    intro v
    simp only [List.foldl_cons, optAsc]
    rw [ih (setF y (getF v || getF y))]
    cases ms with
    | nil => simp [List.getLastD, hget, hss]
    | cons z t =>
      simp only [List.getLastD_cons, List.any_cons, hget, Bool.or_assoc]

theorem foldl_optAsc_char (heta : ∀ x : α, setF x (getF x) = x)
    (hget : ∀ (x : α) (b : Bool), getF (setF x b) = b)
    (hss : ∀ (x : α) (b b' : Bool), setF (setF x b) b' = setF x b')
    (F : List α) :
    F.foldl (optAsc getF setF) none
      = F.getLast?.map fun r => setF r (F.any getF) := by
  cases F with
  | nil => rfl
  | cons x ms =>
    simp only [List.foldl_cons, optAsc]
    rw [foldl_optAsc_some heta hget hss ms x]
    simp [List.getLast?_cons, List.getLastD_eq_getLast?, List.any_cons]

theorem foldl_optDesc_some (heta : ∀ x : α, setF x (getF x) = x)
    (hget : ∀ (x : α) (b : Bool), getF (setF x b) = b)
    (hss : ∀ (x : α) (b b' : Bool), setF (setF x b) b' = setF x b') :
    ∀ (ms : List α) (v : α),
      ms.foldl (optDesc getF setF) (some v)
        = some (setF v (getF v || ms.any getF)) := by
  intro ms
  induction ms with
  | nil => intro v; simp [heta]
  | cons y ms ih =>
    intro v
    simp only [List.foldl_cons, optDesc]
    have hstep :
        (if (getF y && !(getF v)) = true then setF v true else v)
          = setF v (getF v || getF y) := by
      cases hv : getF v with
      | true =>
        simp only [Bool.not_true, Bool.and_false, Bool.false_eq_true,
          if_false, Bool.true_or]
        rw [← hv, heta]
      | false =>
        cases hy : getF y with
        | true => simp
        | false =>
          simp only [Bool.not_false, Bool.and_true, Bool.false_eq_true,
            if_false, Bool.false_or]
          rw [← hv, heta]
    rw [hstep, ih (setF v (getF v || getF y))]
    simp only [List.any_cons, hget, hss, Bool.or_assoc]

theorem foldl_optDesc_char (heta : ∀ x : α, setF x (getF x) = x)
    (hget : ∀ (x : α) (b : Bool), getF (setF x b) = b)
    (hss : ∀ (x : α) (b b' : Bool), setF (setF x b) b' = setF x b')
    (F : List α) :
    F.foldl (optDesc getF setF) none
      = F.head?.map fun r => setF r (F.any getF) := by
  cases F with
  | nil => rfl
  | cons x ms =>
    simp only [List.foldl_cons, optDesc]
    rw [foldl_optDesc_some heta hget hss ms x]
    simp [List.any_cons]

end MergeLemmas

section MergeLemmas2

variable {σ α : Type} {sid : σ → Nat} {items : σ → List α} {sig : α → String}
variable {getF : α → Bool} {setF : α → Bool → α}

theorem mergeAsc_eq_foldl (history : List σ) :
    mergeAsc sid items sig getF setF history
      = (((sortedAsc sid history).map items).flatten).foldl
          (stepAsc sig getF setF) [] := by
  unfold mergeAsc
  rw [List.foldl_flatten, List.foldl_map]

theorem mergeDesc_eq_foldl (history : List σ) :
    mergeDesc sid items sig getF setF history
      = (((sortedDesc sid history).map items).flatten).foldl
          (stepDesc sig getF setF) [] := by
  unfold mergeDesc
  rw [List.foldl_flatten, List.foldl_map]

theorem lookupA_mergeAsc (history : List σ) (s : String) :
    lookupA (mergeAsc sid items sig getF setF history) s
      = ((((sortedAsc sid history).map items).flatten).filter
          fun x => sig x == s).foldl (optAsc getF setF) none := by
  rw [mergeAsc_eq_foldl, lookupA_foldl_stepAsc]
  rfl

theorem lookupA_mergeDesc (history : List σ) (s : String) :
    lookupA (mergeDesc sid items sig getF setF history) s
      = ((((sortedDesc sid history).map items).flatten).filter
          fun x => sig x == s).foldl (optDesc getF setF) none := by
  rw [mergeDesc_eq_foldl, lookupA_foldl_stepDesc]
  rfl

theorem nodup_keys_stepAsc {m : List (String × α)} (x : α)
    (h : (m.map Prod.fst).Nodup) :
    ((stepAsc sig getF setF m x).map Prod.fst).Nodup := by
  unfold stepAsc
  cases lookupA m (sig x) with
  | none => exact nodup_keys_setA _ _ h
  | some ex => exact nodup_keys_setA _ _ h

theorem nodup_keys_stepDesc {m : List (String × α)} (x : α)
    (h : (m.map Prod.fst).Nodup) :
    ((stepDesc sig getF setF m x).map Prod.fst).Nodup := by
  unfold stepDesc
  cases lookupA m (sig x) with
  | none => exact nodup_keys_setA _ _ h
  | some ex =>
    by_cases hc : (getF x && !(getF ex)) = true
    · simp only [hc, if_true]
      exact nodup_keys_setA _ _ h
    · simpa [hc] using h

theorem nodup_keys_foldl_stepAsc (l : List α) (m : List (String × α))
    (h : (m.map Prod.fst).Nodup) :
    ((l.foldl (stepAsc sig getF setF) m).map Prod.fst).Nodup := by
  induction l generalizing m with
  | nil => exact h
  | cons x l ih => exact ih _ (nodup_keys_stepAsc x h)

theorem nodup_keys_foldl_stepDesc (l : List α) (m : List (String × α))
    (h : (m.map Prod.fst).Nodup) :
    ((l.foldl (stepDesc sig getF setF) m).map Prod.fst).Nodup := by
  induction l generalizing m with
  | nil => exact h
  | cons x l ih => exact ih _ (nodup_keys_stepDesc x h)

theorem nodup_keys_mergeAsc (history : List σ) :
    ((mergeAsc sid items sig getF setF history).map Prod.fst).Nodup := by
  rw [mergeAsc_eq_foldl]
  exact nodup_keys_foldl_stepAsc _ _ (by simp)

theorem nodup_keys_mergeDesc (history : List σ) :
    ((mergeDesc sid items sig getF setF history).map Prod.fst).Nodup := by
  rw [mergeDesc_eq_foldl]
  exact nodup_keys_foldl_stepDesc _ _ (by simp)

/-- Every value the ascending merge stores under key `s` is a flag-rewrite of
some record with signature `s`, and its flag is the OR of the flags of all
records with signature `s`. -/
theorem lookupA_mergeAsc_cases (heta : ∀ x : α, setF x (getF x) = x)
    (hget : ∀ (x : α) (b : Bool), getF (setF x b) = b)
    (hss : ∀ (x : α) (b b' : Bool), setF (setF x b) b' = setF x b')
    {history : List σ} {s : String} {v : α}
    (h : lookupA (mergeAsc sid items sig getF setF history) s = some v) :
    ∃ r, r ∈ ((sortedAsc sid history).map items).flatten ∧ (sig r == s) = true ∧
      v = setF r ((((sortedAsc sid history).map items).flatten).any
        fun x => (sig x == s) && getF x) := by
  rw [lookupA_mergeAsc, foldl_optAsc_char heta hget hss] at h
  cases hL : (((((sortedAsc sid history).map items).flatten).filter
      fun x => sig x == s)).getLast? with
  | none => rw [hL] at h; cases h
  | some r =>
    rw [hL] at h
    simp only [Option.map_some'] at h
    have hrF : r ∈ (((sortedAsc sid history).map items).flatten).filter
        fun x => sig x == s := List.mem_of_mem_getLast? hL
    refine ⟨r, (List.mem_filter.mp hrF).1, (List.mem_filter.mp hrF).2, ?_⟩
    injection h with h
    rw [← h, List.any_filter]

/-- Every value the descending merge stores under key `s` is a flag-rewrite
of some record with signature `s`, and its flag is the OR of the flags of all
records with signature `s`. -/
theorem lookupA_mergeDesc_cases (heta : ∀ x : α, setF x (getF x) = x)
    (hget : ∀ (x : α) (b : Bool), getF (setF x b) = b)
    (hss : ∀ (x : α) (b b' : Bool), setF (setF x b) b' = setF x b')
    {history : List σ} {s : String} {v : α}
    (h : lookupA (mergeDesc sid items sig getF setF history) s = some v) :
    ∃ r, r ∈ ((sortedDesc sid history).map items).flatten ∧ (sig r == s) = true ∧
      v = setF r ((((sortedDesc sid history).map items).flatten).any
        fun x => (sig x == s) && getF x) := by
  rw [lookupA_mergeDesc, foldl_optDesc_char heta hget hss] at h
  cases hL : (((((sortedDesc sid history).map items).flatten).filter
      fun x => sig x == s)).head? with
  | none => rw [hL] at h; cases h
  | some r =>
    rw [hL] at h
    simp only [Option.map_some'] at h
    have hrF : r ∈ (((sortedDesc sid history).map items).flatten).filter
        fun x => sig x == s := List.mem_of_mem_head? hL
    refine ⟨r, (List.mem_filter.mp hrF).1, (List.mem_filter.mp hrF).2, ?_⟩
    injection h with h
    rw [← h, List.any_filter]

theorem mem_flatten_map {L : List σ} {x : α}
    (hx : x ∈ (L.map items).flatten) : ∃ C ∈ L, x ∈ items C := by
  rw [List.mem_flatten] at hx
  obtain ⟨l, hl, hxl⟩ := hx
  rw [List.mem_map] at hl
  obtain ⟨C, hC, rfl⟩ := hl
  exact ⟨C, hC, hxl⟩

theorem sortedAsc_perm (sid : σ → Nat) (history : List σ) :
    (sortedAsc sid history).Perm history :=
  List.perm_insertionSort _ _

theorem sortedDesc_perm (sid : σ → Nat) (history : List σ) :
    (sortedDesc sid history).Perm history :=
  List.perm_insertionSort _ _

theorem sortedAsc_pairwise (sid : σ → Nat) (history : List σ) :
    (sortedAsc sid history).Pairwise fun a b => sid a ≤ sid b := by
  haveI : IsTotal σ fun a b => sid a ≤ sid b := ⟨fun a b => Nat.le_total _ _⟩
  haveI : IsTrans σ fun a b => sid a ≤ sid b :=
    ⟨fun _ _ _ h1 h2 => Nat.le_trans h1 h2⟩
  exact List.sorted_insertionSort _ _

theorem sortedDesc_pairwise (sid : σ → Nat) (history : List σ) :
    (sortedDesc sid history).Pairwise fun a b => sid b ≤ sid a := by
  haveI : IsTotal σ fun a b => sid b ≤ sid a := ⟨fun a b => Nat.le_total _ _⟩
  haveI : IsTrans σ fun a b => sid b ≤ sid a :=
    ⟨fun _ _ _ h1 h2 => Nat.le_trans h2 h1⟩
  exact List.sorted_insertionSort _ _

theorem getLast?_of_all_eq {β : Type} {G : List β} {b : β} (hne : G ≠ [])
    (hall : ∀ x ∈ G, x = b) : G.getLast? = some b := by
  rw [List.getLast?_eq_getLast _ hne]
  exact congrArg some (hall _ (List.getLast_mem hne))

theorem head?_of_all_eq {β : Type} {G : List β} {b : β} (hne : G ≠ [])
    (hall : ∀ x ∈ G, x = b) : G.head? = some b := by
  cases G with
  | nil => exact absurd rfl hne
  | cons h t =>
    simp only [List.head?_cons]
    exact congrArg some (hall _ (List.mem_cons_self _ _))

theorem head?_append_all_eq {β : Type} {X Y : List β} {b : β}
    (hX : ∀ x ∈ X, x = b) (hY : Y.head? = some b) :
    (X ++ Y).head? = some b := by
  cases X with
  | nil => simpa
  | cons h t =>
    simp only [List.cons_append, List.head?_cons]
    exact congrArg some (hX _ (List.mem_cons_self _ _))

/-- In the ascending (events) merge, when every record carrying signature `s`
either lives in session `A` or is the record `rB` of the strictly newer
session `B`, the value stored under `s` is `rB` with an OR-merged flag: the
newest content wins. -/
theorem lookupA_mergeAsc_latest (heta : ∀ x : α, setF x (getF x) = x)
    (hget : ∀ (x : α) (b : Bool), getF (setF x b) = b)
    (hss : ∀ (x : α) (b b' : Bool), setF (setF x b) b' = setF x b')
    {history : List σ} {A B : σ} {rB : α} {s : String}
    (hidAB : sid A < sid B) (hB : B ∈ history)
    (hrB : rB ∈ items B) (hsB : sig rB = s)
    (honly : ∀ sess ∈ history, ∀ r ∈ items sess, sig r = s →
      sess = A ∨ (sess = B ∧ r = rB)) :
    lookupA (mergeAsc sid items sig getF setF history) s
      = some (setF rB ((((sortedAsc sid history).map items).flatten).any
          fun x => (sig x == s) && getF x)) := by
  obtain ⟨L₁, L₂, hsplit⟩ :=
    List.append_of_mem ((sortedAsc_perm sid history).mem_iff.mpr hB)
  have hpw := sortedAsc_pairwise sid history
  rw [hsplit] at hpw
  have hL2 : ∀ C ∈ L₂, sid B ≤ sid C := by
    have h2 := (List.pairwise_append.mp hpw).2.1
    exact fun C hC => (List.pairwise_cons.mp h2).1 C hC
  have hmemHist : ∀ C : σ, C ∈ L₁ ++ B :: L₂ → C ∈ history := fun C hC =>
    (sortedAsc_perm sid history).mem_iff.mp (hsplit ▸ hC)
  have hlast : ((((sortedAsc sid history).map items).flatten).filter
      fun x => sig x == s).getLast? = some rB := by
    rw [hsplit]
    simp only [List.map_append, List.map_cons, List.flatten_append,
      List.flatten_cons, List.filter_append]
    rw [List.getLast?_append]
    have hall : ∀ x ∈ (items B).filter (fun x => sig x == s) ++
        ((L₂.map items).flatten).filter (fun x => sig x == s), x = rB := by
      intro x hx
      rcases List.mem_append.mp hx with hxB | hxL2
      · have hxm := List.mem_filter.mp hxB
        have hxs : sig x = s := eq_of_beq hxm.2
        rcases honly B (hmemHist B (by simp)) x hxm.1 hxs with hBA | hr
        · rw [hBA] at hidAB; exact absurd hidAB (Nat.lt_irrefl _)
        · exact hr.2
      · have hxm := List.mem_filter.mp hxL2
        have hxs : sig x = s := eq_of_beq hxm.2
        obtain ⟨C, hC, hxC⟩ := mem_flatten_map hxm.1
        rcases honly C (hmemHist C (by simp [hC])) x hxC hxs with hCA | hr
        · have := hL2 C hC
          rw [hCA] at this
          omega
        · exact hr.2
    have hne : (items B).filter (fun x => sig x == s) ++
        ((L₂.map items).flatten).filter (fun x => sig x == s) ≠ [] := by
      have : rB ∈ (items B).filter fun x => sig x == s :=
        List.mem_filter.mpr ⟨hrB, by simp [hsB]⟩
      exact List.ne_nil_of_mem (List.mem_append_left _ this)
    rw [getLast?_of_all_eq hne hall]
    rfl
  rw [lookupA_mergeAsc, foldl_optAsc_char heta hget hss, hlast]
  simp only [Option.map_some']
  rw [List.any_filter]

/-- In the descending (news) merge, under the same hypotheses, the value
stored under `s` is again `rB` with an OR-merged flag: the newest session is
seen first and kept. -/
theorem lookupA_mergeDesc_latest (heta : ∀ x : α, setF x (getF x) = x)
    (hget : ∀ (x : α) (b : Bool), getF (setF x b) = b)
    (hss : ∀ (x : α) (b b' : Bool), setF (setF x b) b' = setF x b')
    {history : List σ} {A B : σ} {rB : α} {s : String}
    (hidAB : sid A < sid B) (hB : B ∈ history)
    (hrB : rB ∈ items B) (hsB : sig rB = s)
    (honly : ∀ sess ∈ history, ∀ r ∈ items sess, sig r = s →
      sess = A ∨ (sess = B ∧ r = rB)) :
    lookupA (mergeDesc sid items sig getF setF history) s
      = some (setF rB ((((sortedDesc sid history).map items).flatten).any
          fun x => (sig x == s) && getF x)) := by
  obtain ⟨L₁, L₂, hsplit⟩ :=
    List.append_of_mem ((sortedDesc_perm sid history).mem_iff.mpr hB)
  have hpw := sortedDesc_pairwise sid history
  rw [hsplit] at hpw
  have hL1 : ∀ C ∈ L₁, sid B ≤ sid C := by
    have h3 := (List.pairwise_append.mp hpw).2.2
    exact fun C hC => h3 C hC B (List.mem_cons_self _ _)
  have hmemHist : ∀ C : σ, C ∈ L₁ ++ B :: L₂ → C ∈ history := fun C hC =>
    (sortedDesc_perm sid history).mem_iff.mp (hsplit ▸ hC)
  have hhead : ((((sortedDesc sid history).map items).flatten).filter
      fun x => sig x == s).head? = some rB := by
    rw [hsplit]
    simp only [List.map_append, List.map_cons, List.flatten_append,
      List.flatten_cons, List.filter_append]
    have hallB : ∀ x ∈ (items B).filter (fun x => sig x == s), x = rB := by
      intro x hx
      have hxm := List.mem_filter.mp hx
      have hxs : sig x = s := eq_of_beq hxm.2
      rcases honly B (hmemHist B (by simp)) x hxm.1 hxs with hBA | hr
      · rw [hBA] at hidAB; exact absurd hidAB (Nat.lt_irrefl _)
      · exact hr.2
    have hall1 : ∀ x ∈ ((L₁.map items).flatten).filter (fun x => sig x == s),
        x = rB := by
      intro x hx
      have hxm := List.mem_filter.mp hx
      have hxs : sig x = s := eq_of_beq hxm.2
      obtain ⟨C, hC, hxC⟩ := mem_flatten_map hxm.1
      rcases honly C (hmemHist C (by simp [hC])) x hxC hxs with hCA | hr
      · have := hL1 C hC
        rw [hCA] at this
        omega
      · exact hr.2
    have hneB : (items B).filter (fun x => sig x == s) ≠ [] :=
      List.ne_nil_of_mem (List.mem_filter.mpr ⟨hrB, by simp [hsB]⟩)
    exact head?_append_all_eq hall1 (by
      rw [List.head?_append, head?_of_all_eq hneB hallB]
      rfl)
  rw [lookupA_mergeDesc, foldl_optDesc_char heta hget hss, hhead]
  simp only [Option.map_some']
  rw [List.any_filter]

/-! ### Equivalence of the two merges under uniqueness hypotheses -/

theorem reverse_of_short {β : Type} {b : List β} (h : b.length ≤ 1) :
    b.reverse = b := by
  cases b with
  | nil => rfl
  | cons x t =>
    cases t with
    | nil => rfl
    | cons y u => simp at h

theorem flatten_reverse_of_short {β : Type} {Bs : List (List β)}
    (h : ∀ b ∈ Bs, b.length ≤ 1) :
    (Bs.reverse).flatten = Bs.flatten.reverse := by
  have hmap : Bs.map List.reverse = Bs := by
    conv_rhs => rw [← List.map_id Bs]
    exact List.map_congr_left fun b hb => reverse_of_short (h b hb)
  rw [List.reverse_flatten, hmap]

theorem length_filter_le_one_of_nodup_map {β : Type} {l : List β} {f : β → String}
    (h : (l.map f).Nodup) (s : String) :
    (l.filter fun x => f x == s).length ≤ 1 := by
  induction l with
  | nil => simp
  | cons x t ih =>
    simp only [List.map_cons, List.nodup_cons] at h
    simp only [List.filter_cons]
    by_cases hx : f x = s
    · have hb : (f x == s) = true := by simp [hx]
      rw [hb, if_pos rfl]
      have hnil : (t.filter fun y => f y == s) = [] := by
        rw [List.filter_eq_nil_iff]
        intro y hy hby
        have hys : f y = s := eq_of_beq hby
        exact h.1 (List.mem_map.mpr ⟨y, hy, by rw [hys, hx]⟩)
      rw [hnil]
      simp
    · have hb : (f x == s) = false := by simp [hx]
      rw [hb, if_neg (by simp)]
      exact ih h.2

theorem sortedDesc_eq_reverse_sortedAsc {sid : σ → Nat} {history : List σ}
    (hids : (history.map sid).Nodup) :
    sortedDesc sid history = (sortedAsc sid history).reverse := by
  have hpermA := sortedAsc_perm sid history
  have hpermD := sortedDesc_perm sid history
  have hidsA : ((sortedAsc sid history).map sid).Nodup :=
    ((hpermA.map sid).nodup_iff).mpr hids
  have hidsD : ((sortedDesc sid history).map sid).Nodup :=
    ((hpermD.map sid).nodup_iff).mpr hids
  have hneA : (sortedAsc sid history).Pairwise fun a b => sid a ≠ sid b :=
    List.pairwise_map.mp hidsA
  have hneD : (sortedDesc sid history).Pairwise fun a b => sid a ≠ sid b :=
    List.pairwise_map.mp hidsD
  have hstrictD : (sortedDesc sid history).Pairwise fun a b => sid b < sid a :=
    ((sortedDesc_pairwise sid history).and hneD).imp
      fun h => Nat.lt_of_le_of_ne h.1 (Ne.symm h.2)
  have hstrictArev : ((sortedAsc sid history).reverse).Pairwise
      fun a b => sid b < sid a :=
    List.pairwise_reverse.mpr (((sortedAsc_pairwise sid history).and hneA).imp
      fun h => Nat.lt_of_le_of_ne h.1 h.2)
  haveI : IsAntisymm σ fun a b => sid b < sid a :=
    ⟨fun a b h1 h2 => absurd (Nat.lt_trans h1 h2) (Nat.lt_irrefl _)⟩
  exact List.eq_of_perm_of_sorted
    (hpermD.trans (hpermA.symm.trans (List.reverse_perm _).symm))
    hstrictD hstrictArev

/-- Under distinct session identifiers and per-session signature uniqueness,
the ascending overwrite-merge and the descending keep-first merge store the
same value under every signature. -/
theorem lookupA_mergeAsc_eq_mergeDesc (heta : ∀ x : α, setF x (getF x) = x)
    (hget : ∀ (x : α) (b : Bool), getF (setF x b) = b)
    (hss : ∀ (x : α) (b b' : Bool), setF (setF x b) b' = setF x b')
    {history : List σ} (hids : (history.map sid).Nodup)
    (huniq : ∀ sess ∈ history, ((items sess).map sig).Nodup) (s : String) :
    lookupA (mergeAsc sid items sig getF setF history) s
      = lookupA (mergeDesc sid items sig getF setF history) s := by
  have hFd : (((sortedDesc sid history).map items).flatten).filter
      (fun x => sig x == s)
      = ((((sortedAsc sid history).map items).flatten).filter
          fun x => sig x == s).reverse := by
    rw [sortedDesc_eq_reverse_sortedAsc hids, List.map_reverse,
        List.filter_flatten, List.filter_flatten, List.map_reverse]
    refine flatten_reverse_of_short ?_
    intro b hb
    rw [List.mem_map] at hb
    obtain ⟨l, hl, rfl⟩ := hb
    rw [List.mem_map] at hl
    obtain ⟨C, hC, rfl⟩ := hl
    exact length_filter_le_one_of_nodup_map
      (huniq C ((sortedAsc_perm sid history).mem_iff.mp hC)) s
  rw [lookupA_mergeAsc, lookupA_mergeDesc, foldl_optAsc_char heta hget hss,
      foldl_optDesc_char heta hget hss, hFd, List.head?_reverse,
      List.any_reverse]

theorem any_flatten_sortedAsc {history : List σ} (f : α → Bool) :
    (((sortedAsc sid history).map items).flatten).any f
      = history.any fun sess => (items sess).any f := by
  rw [List.any_flatten, any_map']
  exact any_eq_of_perm (sortedAsc_perm sid history) _

theorem any_flatten_sortedDesc {history : List σ} (f : α → Bool) :
    (((sortedDesc sid history).map items).flatten).any f
      = history.any fun sess => (items sess).any f := by
  rw [List.any_flatten, any_map']
  exact any_eq_of_perm (sortedDesc_perm sid history) _

end MergeLemmas2

theorem lookupA_mem {α : Type} {m : List (String × α)} {s : String} {v : α}
    (h : lookupA m s = some v) : (s, v) ∈ m := by
  induction m with
  | nil => cases h
  | cons p m ih =>
    by_cases hp : p.1 = s
    · simp only [lookupA, if_pos hp, Option.some.injEq] at h
      have hpv : p = (s, v) := by
        obtain ⟨p1, p2⟩ := p
        simp only at hp h
        rw [hp, h]
      rw [← hpv]
      exact List.mem_cons_self _ _
    · simp only [lookupA, if_neg hp] at h
      exact List.mem_cons_of_mem _ (ih h)

/-! ### App-level instantiations -/

theorem eventFlag_eta (e : EventItem) : EventApp.setFlag e (EventApp.getFlag e) = e := rfl

theorem eventFlag_get (e : EventItem) (b : Bool) :
    EventApp.getFlag (EventApp.setFlag e b) = b := rfl

theorem eventFlag_set_set (e : EventItem) (b b' : Bool) :
    EventApp.setFlag (EventApp.setFlag e b) b' = EventApp.setFlag e b' := rfl

theorem newsFlag_eta (n : NewsItem) : RadarApp.setFlag n (RadarApp.getFlag n) = n := rfl

theorem newsFlag_get (n : NewsItem) (b : Bool) :
    RadarApp.getFlag (RadarApp.setFlag n b) = b := rfl

theorem newsFlag_set_set (n : NewsItem) (b b' : Bool) :
    RadarApp.setFlag (RadarApp.setFlag n b) b' = RadarApp.setFlag n b' := rfl

theorem eventSig_setFlag (e : EventItem) (b : Bool) :
    getEventSignature (EventApp.setFlag e b) = getEventSignature e := rfl

theorem newsSig_setFlag (n : NewsItem) (b : Bool) :
    getNewsSignature (RadarApp.setFlag n b) = getNewsSignature n := rfl

theorem eventSig_update (e : EventItem) (v : Bool) :
    getEventSignature { e with addedToCalendar := v } = getEventSignature e := rfl

theorem newsSig_update (n : NewsItem) (v : Bool) :
    getNewsSignature { n with read := v } = getNewsSignature n := rfl

theorem contentEq_setFlag (r : EventItem) (b : Bool) :
    contentEq (EventApp.setFlag r b) r :=
  ⟨rfl, rfl, rfl, rfl, rfl, rfl, rfl⟩

theorem newsContentEq_setFlag (r : NewsItem) (b : Bool) :
    newsContentEq (RadarApp.setFlag r b) r :=
  ⟨rfl, rfl, rfl, rfl, rfl, rfl, rfl, rfl⟩

/-- Membership in the master view (events) implies membership among the
merge-map values. -/
theorem mem_masterEvents_values {now : Now} {hide : Bool}
    {history : List EventApp.ScanSession} {e : EventItem}
    (h : e ∈ EventApp.masterEvents now hide history) :
    e ∈ (EventApp.uniqueMap history).map Prod.snd := by
  unfold EventApp.masterEvents at h
  cases hide with
  | true =>
    simp only [if_true] at h
    exact (List.perm_insertionSort _ _).mem_iff.mp (List.mem_of_mem_filter h)
  | false =>
    simp only [Bool.false_eq_true, if_false] at h
    exact (List.perm_insertionSort _ _).mem_iff.mp h

/-- Membership among the merge-map values implies membership in the unfiltered
master view (events). -/
theorem mem_masterEvents_of_values {now : Now}
    {history : List EventApp.ScanSession} {e : EventItem}
    (h : e ∈ (EventApp.uniqueMap history).map Prod.snd) :
    e ∈ EventApp.masterEvents now false history := by
  unfold EventApp.masterEvents
  simp only [Bool.false_eq_true, if_false]
  exact (List.perm_insertionSort _ _).mem_iff.mpr h

/-- Membership in the master view (news) implies membership among the
merge-map values. -/
theorem mem_masterItems_values {high : Bool}
    {history : List RadarApp.ScanSession} {n : NewsItem}
    (h : n ∈ RadarApp.masterItems high history) :
    n ∈ (RadarApp.uniqueMap history).map Prod.snd := by
  unfold RadarApp.masterItems at h
  cases high with
  | true =>
    simp only [if_true] at h
    exact List.mem_of_mem_filter h
  | false =>
    simpa using h

/-- Membership among the merge-map values implies membership in the unfiltered
master view (news). -/
theorem mem_masterItems_of_values {history : List RadarApp.ScanSession}
    {n : NewsItem} (h : n ∈ (RadarApp.uniqueMap history).map Prod.snd) :
    n ∈ RadarApp.masterItems false history := by
  unfold RadarApp.masterItems
  simpa using h

/-- A value of the events merge map is stored under its own signature. -/
theorem event_lookup_of_mem_values {history : List EventApp.ScanSession}
    {e : EventItem} (h : e ∈ (EventApp.uniqueMap history).map Prod.snd) :
    lookupA (EventApp.uniqueMap history) (getEventSignature e) = some e := by
  rw [List.mem_map] at h
  obtain ⟨p, hp, rfl⟩ := h
  have hk : lookupA (EventApp.uniqueMap history) p.1 = some p.2 := by
    unfold EventApp.uniqueMap
    exact lookupA_eq_of_mem (nodup_keys_mergeAsc history) hp
  have hk' := hk
  unfold EventApp.uniqueMap at hk'
  obtain ⟨r, _, hrs, hv⟩ :=
    lookupA_mergeAsc_cases eventFlag_eta eventFlag_get eventFlag_set_set hk'
  have hsig : getEventSignature p.2 = p.1 := by
    rw [hv, eventSig_setFlag]
    exact eq_of_beq hrs
  rw [hsig]
  exact hk

/-- A value of the news merge map is stored under its own signature. -/
theorem news_lookup_of_mem_values {history : List RadarApp.ScanSession}
    {n : NewsItem} (h : n ∈ (RadarApp.uniqueMap history).map Prod.snd) :
    lookupA (RadarApp.uniqueMap history) (getNewsSignature n) = some n := by
  rw [List.mem_map] at h
  obtain ⟨p, hp, rfl⟩ := h
  have hk : lookupA (RadarApp.uniqueMap history) p.1 = some p.2 := by
    unfold RadarApp.uniqueMap
    exact lookupA_eq_of_mem (nodup_keys_mergeDesc history) hp
  have hk' := hk
  unfold RadarApp.uniqueMap at hk'
  obtain ⟨r, _, hrs, hv⟩ :=
    lookupA_mergeDesc_cases newsFlag_eta newsFlag_get newsFlag_set_set hk'
  have hsig : getNewsSignature p.2 = p.1 := by
    rw [hv, newsSig_setFlag]
    exact eq_of_beq hrs
  rw [hsig]
  exact hk

/-- The flag stored under signature `s` in the events merge map is the OR of
the flags of all records with signature `s`. -/
theorem event_flag_of_lookup {history : List EventApp.ScanSession} {s : String}
    {e : EventItem} (h : lookupA (EventApp.uniqueMap history) s = some e) :
    e.addedToCalendar = EventApp.flagOR history s := by
  unfold EventApp.uniqueMap at h
  obtain ⟨r, _, _, hv⟩ :=
    lookupA_mergeAsc_cases eventFlag_eta eventFlag_get eventFlag_set_set h
  have h1 : e.addedToCalendar
      = ((((sortedAsc (fun sess : EventApp.ScanSession => sess.id) history).map
        (fun sess => sess.events)).flatten).any
          fun x => (getEventSignature x == s) && EventApp.getFlag x) := by
    rw [hv]; rfl
  rw [h1, any_flatten_sortedAsc]
  rfl

/-- The flag stored under signature `s` in the news merge map is the OR of
the flags of all records with signature `s`. -/
theorem news_flag_of_lookup {history : List RadarApp.ScanSession} {s : String}
    {n : NewsItem} (h : lookupA (RadarApp.uniqueMap history) s = some n) :
    n.read = RadarApp.flagOR history s := by
  unfold RadarApp.uniqueMap at h
  obtain ⟨r, _, _, hv⟩ :=
    lookupA_mergeDesc_cases newsFlag_eta newsFlag_get newsFlag_set_set h
  have h1 : n.read
      = ((((sortedDesc (fun sess : RadarApp.ScanSession => sess.id) history).map
        (fun sess => sess.items)).flatten).any
          fun x => (getNewsSignature x == s) && RadarApp.getFlag x) := by
    rw [hv]; rfl
  rw [h1, any_flatten_sortedDesc]
  rfl

/-! ## Claim theorems -/

/-- C1: Consolidated-view flag monotonicity.  In both apps, for every session
history and every record of the consolidated view, the record's user-state
flag equals the logical OR of that flag over all records with the same
signature across all sessions, regardless of which sessions carry the true
flag. -/
theorem C1_merge_flag_monotonicity :
    (∀ (now : Now) (hide : Bool) (history : List EventApp.ScanSession)
        (e : EventItem), e ∈ EventApp.masterEvents now hide history →
        e.addedToCalendar = EventApp.flagOR history (getEventSignature e)) ∧
    (∀ (high : Bool) (history : List RadarApp.ScanSession) (n : NewsItem),
        n ∈ RadarApp.masterItems high history →
        n.read = RadarApp.flagOR history (getNewsSignature n)) := by
  constructor
  · intro now hide history e hmem
    exact event_flag_of_lookup
      (event_lookup_of_mem_values (mem_masterEvents_values hmem))
  · intro high history n hmem
    exact news_flag_of_lookup
      (news_lookup_of_mem_values (mem_masterItems_values hmem))

/-- Witness for C1 at a concrete two-session history in each app. -/
theorem C1_merge_flag_monotonicity_witness :
    (mkEvent "pitch night" "24 oct, 22h-02h" "new text" true
        ∈ EventApp.masterEvents refNow false sampleHistory) ∧
    (mkEvent "pitch night" "24 oct, 22h-02h" "new text" true).addedToCalendar
      = EventApp.flagOR sampleHistory
          (getEventSignature (mkEvent "pitch night" "24 oct, 22h-02h" "new text" true)) ∧
    (mkNews "Alpha!" "25 oct" "new impact" CriticalityLevel.LOW true
        ∈ RadarApp.masterItems false sampleRadarHistory) ∧
    (mkNews "Alpha!" "25 oct" "new impact" CriticalityLevel.LOW true).read
      = RadarApp.flagOR sampleRadarHistory
          (getNewsSignature (mkNews "Alpha!" "25 oct" "new impact" CriticalityLevel.LOW true)) :=
  ⟨by decide,
   C1_merge_flag_monotonicity.1 refNow false sampleHistory _ (by decide),
   by decide,
   C1_merge_flag_monotonicity.2 false sampleRadarHistory _ (by decide)⟩

/-- C2: Freshness precedence.  In both apps, when the records carrying a
signature are exactly one record in an older session `A` and the record `rB`
of a strictly newer session `B` with different descriptive text, the
consolidated view has a record for that signature, and every such record
carries `rB`'s content (all fields other than the user-state flag). -/
theorem C2_freshness_precedence :
    (∀ (now : Now) (history : List EventApp.ScanSession)
        (A B : EventApp.ScanSession) (rA rB : EventItem),
        A.id < B.id → A ∈ history → B ∈ history →
        rA ∈ A.events → rB ∈ B.events →
        getEventSignature rA = getEventSignature rB →
        rA.description ≠ rB.description →
        (∀ sess ∈ history, ∀ r ∈ sess.events,
          getEventSignature r = getEventSignature rB →
          sess = A ∨ (sess = B ∧ r = rB)) →
        (∃ e ∈ EventApp.masterEvents now false history,
            getEventSignature e = getEventSignature rB) ∧
        (∀ e ∈ EventApp.masterEvents now false history,
            getEventSignature e = getEventSignature rB → contentEq e rB)) ∧
    (∀ (history : List RadarApp.ScanSession)
        (A B : RadarApp.ScanSession) (rA rB : NewsItem),
        A.id < B.id → A ∈ history → B ∈ history →
        rA ∈ A.items → rB ∈ B.items →
        getNewsSignature rA = getNewsSignature rB →
        rA.impact_analysis ≠ rB.impact_analysis →
        (∀ sess ∈ history, ∀ r ∈ sess.items,
          getNewsSignature r = getNewsSignature rB →
          sess = A ∨ (sess = B ∧ r = rB)) →
        (∃ n ∈ RadarApp.masterItems false history,
            getNewsSignature n = getNewsSignature rB) ∧
        (∀ n ∈ RadarApp.masterItems false history,
            getNewsSignature n = getNewsSignature rB → newsContentEq n rB)) := by
  constructor
  · intro now history A B rA rB hid hA hB hrA hrB hsig hdesc honly
    have hlk : lookupA (EventApp.uniqueMap history) (getEventSignature rB)
        = some (EventApp.setFlag rB
          ((((sortedAsc (fun sess : EventApp.ScanSession => sess.id)
              history).map (fun sess => sess.events)).flatten).any
            fun x => (getEventSignature x == getEventSignature rB)
              && EventApp.getFlag x)) := by
      unfold EventApp.uniqueMap
      exact lookupA_mergeAsc_latest eventFlag_eta eventFlag_get
        eventFlag_set_set hid hB hrB rfl honly
    constructor
    · refine ⟨_, mem_masterEvents_of_values (mem_snd_of_mem (lookupA_mem hlk)), ?_⟩
      exact eventSig_setFlag rB _
    · intro e hmem hsige
      have he : lookupA (EventApp.uniqueMap history) (getEventSignature rB)
          = some e := by
        rw [← hsige]
        exact event_lookup_of_mem_values (mem_masterEvents_values hmem)
      rw [hlk] at he
      injection he with he
      rw [← he]
      exact contentEq_setFlag rB _
  · intro history A B rA rB hid hA hB hrA hrB hsig hdesc honly
    have hlk : lookupA (RadarApp.uniqueMap history) (getNewsSignature rB)
        = some (RadarApp.setFlag rB
          ((((sortedDesc (fun sess : RadarApp.ScanSession => sess.id)
              history).map (fun sess => sess.items)).flatten).any
            fun x => (getNewsSignature x == getNewsSignature rB)
              && RadarApp.getFlag x)) := by
      unfold RadarApp.uniqueMap
      exact lookupA_mergeDesc_latest newsFlag_eta newsFlag_get
        newsFlag_set_set hid hB hrB rfl honly
    constructor
    · refine ⟨_, mem_masterItems_of_values (mem_snd_of_mem (lookupA_mem hlk)), ?_⟩
      exact newsSig_setFlag rB _
    · intro n hmem hsige
      have he : lookupA (RadarApp.uniqueMap history) (getNewsSignature rB)
          = some n := by
        rw [← hsige]
        exact news_lookup_of_mem_values (mem_masterItems_values hmem)
      rw [hlk] at he
      injection he with he
      rw [← he]
      exact newsContentEq_setFlag rB _

/-- Witness for C2: a two-session history in each app, with the pitch-night
record re-observed under a differently punctuated title. -/
theorem C2_freshness_precedence_witness :
    ((∃ e ∈ EventApp.masterEvents refNow false sampleHistory,
        getEventSignature e = getEventSignature
          (mkEvent "pitch night" "24 oct, 22h-02h" "new text" false)) ∧
      (∀ e ∈ EventApp.masterEvents refNow false sampleHistory,
        getEventSignature e = getEventSignature
          (mkEvent "pitch night" "24 oct, 22h-02h" "new text" false) →
        contentEq e (mkEvent "pitch night" "24 oct, 22h-02h" "new text" false))) ∧
    ((∃ n ∈ RadarApp.masterItems false sampleRadarHistory,
        getNewsSignature n = getNewsSignature
          (mkNews "Alpha!" "25 oct" "new impact" CriticalityLevel.LOW false)) ∧
      (∀ n ∈ RadarApp.masterItems false sampleRadarHistory,
        getNewsSignature n = getNewsSignature
          (mkNews "Alpha!" "25 oct" "new impact" CriticalityLevel.LOW false) →
        newsContentEq n (mkNews "Alpha!" "25 oct" "new impact" CriticalityLevel.LOW false))) := by
  constructor
  · exact C2_freshness_precedence.1 refNow sampleHistory sampleSessionA
      sampleSessionB (mkEvent "Pitch Night!!" "24 oct, 22h-02h" "old text" true)
      (mkEvent "pitch night" "24 oct, 22h-02h" "new text" false)
      (by decide) (by decide) (by decide) (by decide) (by decide) (by decide)
      (by decide) (by decide)
  · exact C2_freshness_precedence.2 sampleRadarHistory sampleRadarA
      sampleRadarB (mkNews "Alpha" "25 oct" "old impact" CriticalityLevel.HIGH true)
      (mkNews "Alpha!" "25 oct" "new impact" CriticalityLevel.LOW false)
      (by decide) (by decide) (by decide) (by decide) (by decide) (by decide)
      (by decide) (by decide)

/-- C3: Targeted global flag update is idempotent, in both apps: applying the
signature-addressed update twice with the same record and value yields the
same stored history as applying it once. -/
theorem C3_updateGlobal_idempotent :
    (∀ (event : EventItem) (added : Bool)
        (history : List EventApp.ScanSession),
        EventApp.updateEventGlobal event added
            (EventApp.updateEventGlobal event added history)
          = EventApp.updateEventGlobal event added history) ∧
    (∀ (item : NewsItem) (read : Bool) (history : List RadarApp.ScanSession),
        RadarApp.updateItemGlobal item read
            (RadarApp.updateItemGlobal item read history)
          = RadarApp.updateItemGlobal item read history) := by
  constructor
  · intro ev v h
    unfold EventApp.updateEventGlobal
    rw [List.map_map]
    apply List.map_congr_left
    intro sess _
    simp only [Function.comp_apply]
    by_cases hm : (sess.events.any
        fun e => getEventSignature e == getEventSignature ev) = true
    · rw [if_pos hm]
      have hm2 : (((sess.events.map fun e =>
          if getEventSignature e == getEventSignature ev then
            { e with addedToCalendar := v } else e)).any
            fun e => getEventSignature e == getEventSignature ev) = true := by
        rw [any_map']
        have : ∀ e : EventItem,
            ((getEventSignature (if getEventSignature e == getEventSignature ev
              then { e with addedToCalendar := v } else e))
                == getEventSignature ev)
              = (getEventSignature e == getEventSignature ev) := by
          intro e
          by_cases he : (getEventSignature e == getEventSignature ev) = true
          · rw [if_pos he, eventSig_update]
          · rw [if_neg he]
        simp only [this]
        exact hm
      rw [if_pos hm2]
      have hmap : ((sess.events.map fun e =>
          if getEventSignature e == getEventSignature ev then
            { e with addedToCalendar := v } else e).map fun e =>
          if getEventSignature e == getEventSignature ev then
            { e with addedToCalendar := v } else e)
          = sess.events.map fun e =>
            if getEventSignature e == getEventSignature ev then
              { e with addedToCalendar := v } else e := by
        rw [List.map_map]
        apply List.map_congr_left
        intro e _
        simp only [Function.comp_apply]
        by_cases he : (getEventSignature e == getEventSignature ev) = true
        · rw [if_pos he, eventSig_update, if_pos he]
        · rw [if_neg he, if_neg he]
      rw [hmap]
    · rw [if_neg hm, if_neg hm]
  · intro it v h
    unfold RadarApp.updateItemGlobal
    rw [List.map_map]
    apply List.map_congr_left
    intro sess _
    simp only [Function.comp_apply]
    by_cases hm : (sess.items.any
        fun e => getNewsSignature e == getNewsSignature it) = true
    · rw [if_pos hm]
      have hm2 : (((sess.items.map fun e =>
          if getNewsSignature e == getNewsSignature it then
            { e with read := v } else e)).any
            fun e => getNewsSignature e == getNewsSignature it) = true := by
        rw [any_map']
        have : ∀ e : NewsItem,
            ((getNewsSignature (if getNewsSignature e == getNewsSignature it
              then { e with read := v } else e)) == getNewsSignature it)
              = (getNewsSignature e == getNewsSignature it) := by
          intro e
          by_cases he : (getNewsSignature e == getNewsSignature it) = true
          · rw [if_pos he, newsSig_update]
          · rw [if_neg he]
        simp only [this]
        exact hm
      rw [if_pos hm2]
      have hmap : ((sess.items.map fun e =>
          if getNewsSignature e == getNewsSignature it then
            { e with read := v } else e).map fun e =>
          if getNewsSignature e == getNewsSignature it then
            { e with read := v } else e)
          = sess.items.map fun e =>
            if getNewsSignature e == getNewsSignature it then
              { e with read := v } else e := by
        rw [List.map_map]
        apply List.map_congr_left
        intro e _
        simp only [Function.comp_apply]
        by_cases he : (getNewsSignature e == getNewsSignature it) = true
        · rw [if_pos he, newsSig_update, if_pos he]
        · rw [if_neg he, if_neg he]
      rw [hmap]
    · rw [if_neg hm, if_neg hm]

theorem forall₂_self_map {β : Type} {R : β → β → Prop} {l : List β} {g : β → β}
    (h : ∀ x ∈ l, R x (g x)) : List.Forall₂ R l (l.map g) := by
  induction l with
  | nil => exact List.Forall₂.nil
  | cons x t ih =>
    exact List.Forall₂.cons (h x (List.mem_cons_self _ _))
      (ih fun y hy => h y (List.mem_cons_of_mem _ hy))

/-- C4: Targeted global flag update touches only the flags of matching
records, in both apps: the updated history corresponds position-by-position
to the old one, with identifiers, timestamps and session lengths preserved;
records whose signature differs from the given record's are unchanged, and
matching records have only their flag overwritten to the new value. -/
theorem C4_updateGlobal_frame :
    (∀ (event : EventItem) (added : Bool)
        (history : List EventApp.ScanSession),
        (EventApp.updateEventGlobal event added history).length = history.length ∧
        List.Forall₂ (fun s s' => s'.id = s.id ∧ s'.dateStr = s.dateStr ∧
            s'.events.length = s.events.length ∧
            List.Forall₂ (fun r r' =>
              (getEventSignature r = getEventSignature event →
                r' = { r with addedToCalendar := added }) ∧
              (getEventSignature r ≠ getEventSignature event → r' = r))
              s.events s'.events)
          history (EventApp.updateEventGlobal event added history)) ∧
    (∀ (item : NewsItem) (read : Bool) (history : List RadarApp.ScanSession),
        (RadarApp.updateItemGlobal item read history).length = history.length ∧
        List.Forall₂ (fun s s' => s'.id = s.id ∧ s'.dateStr = s.dateStr ∧
            s'.items.length = s.items.length ∧
            List.Forall₂ (fun r r' =>
              (getNewsSignature r = getNewsSignature item →
                r' = { r with read := read }) ∧
              (getNewsSignature r ≠ getNewsSignature item → r' = r))
              s.items s'.items)
          history (RadarApp.updateItemGlobal item read history)) := by
  constructor
  · intro ev v h
    have hforall : List.Forall₂ (fun s s' => s'.id = s.id ∧ s'.dateStr = s.dateStr ∧
        s'.events.length = s.events.length ∧
        List.Forall₂ (fun r r' =>
          (getEventSignature r = getEventSignature ev →
            r' = { r with addedToCalendar := v }) ∧
          (getEventSignature r ≠ getEventSignature ev → r' = r))
          s.events s'.events)
        h (EventApp.updateEventGlobal ev v h) := by
      unfold EventApp.updateEventGlobal
      refine forall₂_self_map ?_
      intro sess _
      by_cases hm : (sess.events.any
          fun e => getEventSignature e == getEventSignature ev) = true
      · rw [if_pos hm]
        refine ⟨rfl, rfl, by rw [List.length_map], ?_⟩
        refine forall₂_self_map ?_
        intro e _
        by_cases he : (getEventSignature e == getEventSignature ev) = true
        · rw [if_pos he]
          exact ⟨fun _ => rfl, fun hne => absurd (eq_of_beq he) hne⟩
        · rw [if_neg he]
          refine ⟨fun hx => ?_, fun _ => rfl⟩
          exact absurd (by simp [hx]) he
      · rw [if_neg hm]
        refine ⟨rfl, rfl, rfl, ?_⟩
        refine List.forall₂_same.mpr ?_
        intro e he'
        have hno := List.any_eq_false.mp (Bool.not_eq_true _ ▸ hm) e he'
        refine ⟨fun hx => ?_, fun _ => rfl⟩
        exact absurd (by simp [hx]) hno
    exact ⟨hforall.length_eq.symm, hforall⟩
  · intro it v h
    have hforall : List.Forall₂ (fun s s' => s'.id = s.id ∧ s'.dateStr = s.dateStr ∧
        s'.items.length = s.items.length ∧
        List.Forall₂ (fun r r' =>
          (getNewsSignature r = getNewsSignature it →
            r' = { r with read := v }) ∧
          (getNewsSignature r ≠ getNewsSignature it → r' = r))
          s.items s'.items)
        h (RadarApp.updateItemGlobal it v h) := by
      unfold RadarApp.updateItemGlobal
      refine forall₂_self_map ?_
      intro sess _
      by_cases hm : (sess.items.any
          fun e => getNewsSignature e == getNewsSignature it) = true
      · rw [if_pos hm]
        refine ⟨rfl, rfl, by rw [List.length_map], ?_⟩
        refine forall₂_self_map ?_
        intro e _
        by_cases he : (getNewsSignature e == getNewsSignature it) = true
        · rw [if_pos he]
          exact ⟨fun _ => rfl, fun hne => absurd (eq_of_beq he) hne⟩
        · rw [if_neg he]
          refine ⟨fun hx => ?_, fun _ => rfl⟩
          exact absurd (by simp [hx]) he
      · rw [if_neg hm]
        refine ⟨rfl, rfl, rfl, ?_⟩
        refine List.forall₂_same.mpr ?_
        intro e he'
        have hno := List.any_eq_false.mp (Bool.not_eq_true _ ▸ hm) e he'
        refine ⟨fun hx => ?_, fun _ => rfl⟩
        exact absurd (by simp [hx]) hno
    exact ⟨hforall.length_eq.symm, hforall⟩

/-- Witness for C4 at a concrete record and history. -/
theorem C4_updateGlobal_frame_witness :
    (EventApp.updateEventGlobal
        (mkEvent "pitch night" "24 oct, 22h-02h" "x" false) true sampleHistory).length
      = sampleHistory.length ∧
    List.Forall₂ (fun s s' => s'.id = s.id ∧ s'.dateStr = s.dateStr ∧
        s'.events.length = s.events.length ∧
        List.Forall₂ (fun r r' =>
          (getEventSignature r = getEventSignature
              (mkEvent "pitch night" "24 oct, 22h-02h" "x" false) →
            r' = { r with addedToCalendar := true }) ∧
          (getEventSignature r ≠ getEventSignature
              (mkEvent "pitch night" "24 oct, 22h-02h" "x" false) → r' = r))
          s.events s'.events)
      sampleHistory
      (EventApp.updateEventGlobal
        (mkEvent "pitch night" "24 oct, 22h-02h" "x" false) true sampleHistory) :=
  C4_updateGlobal_frame.1 (mkEvent "pitch night" "24 oct, 22h-02h" "x" false)
    true sampleHistory

/-- C5 counterexample: the news app's consolidated view (`masterItems`) is
returned in merge-insertion order and is not sorted by the start instant that
the date extractor produces from each record's date text: a single session
listing a 25 October item before a 24 October item already violates the
claimed ordering. -/
theorem C5_counterexample :
    ¬ List.Sorted
        (fun a b : NewsItem =>
          (parseEventDateInfo refNow a.date).1 ≤ (parseEventDateInfo refNow b.date).1)
        (RadarApp.masterItems false sampleRadarHistory) := by
  decide

/-- C5 amended: the events app's consolidated view (`masterEvents`) is sorted
in ascending order of the start instant the date extractor produces from each
record's date text, with or without the hide-past filter; the news app's
consolidated view performs no such sort. -/
theorem C5_masterEvents_sorted (now : Now) (hide : Bool)
    (history : List EventApp.ScanSession) :
    List.Sorted
      (fun a b : EventItem =>
        (parseEventDateInfo now a.date).1 ≤ (parseEventDateInfo now b.date).1)
      (EventApp.masterEvents now hide history) := by
  unfold EventApp.masterEvents
  haveI : IsTotal EventItem fun a b =>
      (parseEventDateInfo now a.date).1 ≤ (parseEventDateInfo now b.date).1 :=
    ⟨fun a b => Nat.le_total _ _⟩
  haveI : IsTrans EventItem fun a b =>
      (parseEventDateInfo now a.date).1 ≤ (parseEventDateInfo now b.date).1 :=
    ⟨fun _ _ _ h1 h2 => Nat.le_trans h1 h2⟩
  cases hide with
  | true =>
    simp only [if_true]
    exact List.Pairwise.filter _ (List.sorted_insertionSort _ _)
  | false =>
    simp only [Bool.false_eq_true, if_false]
    exact List.sorted_insertionSort _ _

/-- C6 counterexample: on the input `"25h"` the extractor finds no explicit
end time, yet the returned end instant is not start + 2 hours — the start
hour 25 rolls the start across midnight while the default end is built from
the normalised clock time on the unnormalised day, landing before the
start. -/
theorem C6_counterexample :
    (parseComponents refNow "25h").endTime = none ∧
    (parseEventDateInfo refNow "25h").2
      ≠ (parseEventDateInfo refNow "25h").1 + 120 := by
  constructor
  · decide
  · decide

/-- C6 amended: the extractor is total (it is a Lean function into pairs) and
substitutes its documented defaults — current month when no month name
matches, current day + 1 when no standalone day is found, start time 09:00
when no time pattern occurs, and, provided the extracted start time denotes
less than 24 hours, end = start + 2 hours when no second time occurs. -/
theorem C6_parse_defaults (now : Now) (s : String) :
    (findMonth (s.data.map jsLower) = none →
        (parseComponents now s).month = now.month) ∧
    (findDay none (maskTimes (s.data.map jsLower)) = none →
        (parseComponents now s).day = now.date + 1) ∧
    (timeMatchesFrom (s.data.map jsLower) = [] →
        (parseComponents now s).startHour = 9 ∧
        (parseComponents now s).startMin = 0) ∧
    ((parseComponents now s).endTime = none →
        (parseComponents now s).startHour * 60
            + (parseComponents now s).startMin < 1440 →
        (parseEventDateInfo now s).2 = (parseEventDateInfo now s).1 + 120) := by
  refine ⟨?_, ?_, ?_, ?_⟩
  · intro h
    simp [parseComponents, h]
  · intro h
    simp [parseComponents, h]
  · intro h
    constructor
    · simp [parseComponents, h]
    · simp [parseComponents, h]
  · intro hend hlt
    unfold parseEventDateInfo
    rcases hc : parseComponents now s with ⟨mo, yr, dy, sh, sm, et⟩
    rw [hc] at hend hlt
    dsimp only at hend hlt ⊢
    subst hend
    dsimp only
    generalize dateBase yr mo dy = B
    omega

/-- Witness for the amended C6 at the empty input, where every default
fires. -/
theorem C6_parse_defaults_witness :
    (parseComponents refNow "").month = refNow.month ∧
    (parseComponents refNow "").day = refNow.date + 1 ∧
    (parseComponents refNow "").startHour = 9 ∧
    (parseComponents refNow "").startMin = 0 ∧
    (parseEventDateInfo refNow "").2 = (parseEventDateInfo refNow "").1 + 120 :=
  ⟨(C6_parse_defaults refNow "").1 (by decide),
   (C6_parse_defaults refNow "").2.1 (by decide),
   ((C6_parse_defaults refNow "").2.2.1 (by decide)).1,
   ((C6_parse_defaults refNow "").2.2.1 (by decide)).2,
   (C6_parse_defaults refNow "").2.2.2 (by decide) (by decide)⟩

/-- C7: Overnight span resolution — when the extractor finds an explicit
second time occurrence and the end candidate built on the parsed
`(year, month, day)` base falls strictly before the start instant, the
returned end instant is the candidate advanced by exactly one calendar
day. -/
theorem C7_overnight_span (now : Now) (s : String) (eh em : Nat)
    (hend : (parseComponents now s).endTime = some (eh, em))
    (hlt : dateBase (parseComponents now s).year (parseComponents now s).month
          (parseComponents now s).day * 1440 + eh * 60 + em
        < (parseEventDateInfo now s).1) :
    (parseEventDateInfo now s).2
      = dateBase (parseComponents now s).year (parseComponents now s).month
          (parseComponents now s).day * 1440 + eh * 60 + em + 1440 := by
  unfold parseEventDateInfo at hlt ⊢
  rcases hc : parseComponents now s with ⟨mo, yr, dy, sh, sm, et⟩
  rw [hc] at hend hlt
  dsimp only at hend hlt ⊢
  subst hend
  dsimp only at hlt ⊢
  rw [if_pos hlt]

/-- Witness for C7: parsing `"24 oct, 22h-02h"` yields an end instant one
calendar day after the start instant, with end time 02:00. -/
theorem C7_overnight_span_witness :
    (parseComponents refNow "24 oct, 22h-02h").endTime = some (2, 0) ∧
    dateBase (parseComponents refNow "24 oct, 22h-02h").year
        (parseComponents refNow "24 oct, 22h-02h").month
        (parseComponents refNow "24 oct, 22h-02h").day * 1440 + 2 * 60 + 0
      < (parseEventDateInfo refNow "24 oct, 22h-02h").1 ∧
    (parseEventDateInfo refNow "24 oct, 22h-02h").2
      = dateBase (parseComponents refNow "24 oct, 22h-02h").year
          (parseComponents refNow "24 oct, 22h-02h").month
          (parseComponents refNow "24 oct, 22h-02h").day * 1440
        + 2 * 60 + 0 + 1440 ∧
    (parseEventDateInfo refNow "24 oct, 22h-02h").2 / 1440
      = (parseEventDateInfo refNow "24 oct, 22h-02h").1 / 1440 + 1 ∧
    (parseEventDateInfo refNow "24 oct, 22h-02h").2 % 1440 = 120 :=
  ⟨by decide, by decide,
   C7_overnight_span refNow ("24 oct, 22h-02h") 2 0 (by decide) (by decide),
   by decide, by decide⟩

theorem scanModel_failure {α σ : Type} (jp : String → Option (List α))
    (mkSession : List α → σ) (gen : Option String) (prior : List σ)
    (h : gen = none ∨ ∃ t, gen = some t ∧
        (coerceItems jp t.data = none ∨ coerceItems jp t.data = some [])) :
    (scanModel jp mkSession gen prior).history = prior ∧
    (scanModel jp mkSession gen prior).errored = true := by
  rcases h with rfl | ⟨t, rfl, hc⟩
  · exact ⟨rfl, rfl⟩
  · unfold scanModel
    dsimp only
    rcases hc with hc | hc
    · rw [hc]
      exact ⟨rfl, rfl⟩
    · rw [hc]
      constructor <;> simp

/-- C8: Scan failure atomicity, in both apps: when the generator call fails,
or its text cannot be coerced into a non-empty JSON array by either
extraction strategy, the scan reports an error, creates no session, and
leaves the stored history unchanged. -/
theorem C8_scan_failure_atomicity :
    (∀ (jp : String → Option (List EventItem)) (newId : Nat)
        (newDateStr : String) (gen : Option String)
        (prior : List EventApp.ScanSession),
        (gen = none ∨ ∃ t, gen = some t ∧
          (coerceItems jp t.data = none ∨ coerceItems jp t.data = some [])) →
        (EventApp.scanEvents jp newId newDateStr gen prior).history = prior ∧
        (EventApp.scanEvents jp newId newDateStr gen prior).errored = true) ∧
    (∀ (jp : String → Option (List NewsItem)) (newId : Nat)
        (newDateStr : String) (gen : Option String)
        (prior : List RadarApp.ScanSession),
        (gen = none ∨ ∃ t, gen = some t ∧
          (coerceItems jp t.data = none ∨ coerceItems jp t.data = some [])) →
        (RadarApp.scanRadar jp newId newDateStr gen prior).history = prior ∧
        (RadarApp.scanRadar jp newId newDateStr gen prior).errored = true) :=
  ⟨fun jp _newId _newDateStr gen prior h =>
    scanModel_failure jp _ gen prior h,
   fun jp _newId _newDateStr gen prior h =>
    scanModel_failure jp _ gen prior h⟩

/-- Witness for C8: a parser that always throws and a response with no
brackets, against a non-empty prior history. -/
theorem C8_scan_failure_atomicity_witness :
    ((EventApp.scanEvents (fun _ => none) 7 ("d") (some "no json array")
        [⟨5, "old", []⟩]).history = [⟨5, "old", []⟩] ∧
      (EventApp.scanEvents (fun _ => none) 7 ("d") (some "no json array")
        [⟨5, "old", []⟩]).errored = true) ∧
    ((RadarApp.scanRadar (fun _ => none) 7 ("d") none
        [⟨5, "old", []⟩]).history = [⟨5, "old", []⟩] ∧
      (RadarApp.scanRadar (fun _ => none) 7 ("d") none
        [⟨5, "old", []⟩]).errored = true) :=
  ⟨C8_scan_failure_atomicity.1 (fun _ => none) 7 ("d") (some "no json array")
      [⟨5, "old", []⟩] (Or.inr ⟨"no json array", rfl, Or.inl rfl⟩),
   C8_scan_failure_atomicity.2 (fun _ => none) 7 ("d") none
      [⟨5, "old", []⟩] (Or.inl rfl)⟩

/-- C9: Signature determinism and normalization invariance: signatures are
deterministic, and two records whose defining text fields differ only in
letter case and non-alphanumeric characters (equal case-folded alphanumeric
subsequences) receive equal signatures, in both apps. -/
theorem C9_signature_invariance :
    (∀ e : EventItem, getEventSignature e = getEventSignature e) ∧
    (∀ e1 e2 : EventItem,
        caseFoldAlnum e1.title = caseFoldAlnum e2.title →
        caseFoldAlnum e1.date = caseFoldAlnum e2.date →
        getEventSignature e1 = getEventSignature e2) ∧
    (∀ n1 n2 : NewsItem,
        caseFoldAlnum n1.headline = caseFoldAlnum n2.headline →
        getNewsSignature n1 = getNewsSignature n2) := by
  refine ⟨fun _ => rfl, ?_, ?_⟩
  · intro e1 e2 ht hd
    unfold getEventSignature
    rw [cleanField_eq_caseFold, cleanField_eq_caseFold, cleanField_eq_caseFold,
      cleanField_eq_caseFold, ht, hd]
  · intro n1 n2 hh
    unfold getNewsSignature
    rw [cleanField_eq_caseFold, cleanField_eq_caseFold, hh]

/-- Witness for C9: `"Pitch Night!!"` and `"pitch night"` produce equal
signatures when the other defining field matches. -/
theorem C9_signature_invariance_witness :
    caseFoldAlnum ("Pitch Night!!") = caseFoldAlnum ("pitch night") ∧
    getEventSignature (mkEvent "Pitch Night!!" "24 oct" "a" false)
      = getEventSignature (mkEvent "pitch night" "24 oct" "b" true) ∧
    getNewsSignature (mkNews "Pitch Night!!" "25 oct" "i" CriticalityLevel.LOW false)
      = getNewsSignature (mkNews "pitch night" "24 oct" "j" CriticalityLevel.HIGH true) :=
  ⟨by decide,
   C9_signature_invariance.2.1 _ _ (by decide) (by decide),
   C9_signature_invariance.2.2 _ _ (by decide)⟩

/-- C10 counterexample: the two merge implementations disagree already on one
session holding two records with the same signature but different content —
the ascending overwrite fold keeps the last occurrence, the descending
keep-first fold keeps the first. -/
theorem C10_counterexample :
    lookupA (EventApp.uniqueMap
        [⟨1, "d", [mkEvent "dup" "24 oct" "first" false,
                   mkEvent "dup" "24 oct" "second" false]⟩])
        (getEventSignature (mkEvent "dup" "24 oct" "first" false))
      ≠ lookupA (mergeDesc (fun sess : EventApp.ScanSession => sess.id)
          (fun sess => sess.events) getEventSignature EventApp.getFlag
          EventApp.setFlag
          [⟨1, "d", [mkEvent "dup" "24 oct" "first" false,
                     mkEvent "dup" "24 oct" "second" false]⟩])
        (getEventSignature (mkEvent "dup" "24 oct" "first" false)) := by
  decide

/-- C10 amended: refinement equivalence of the two consolidated-view merge
implementations holds per signature provided session identifiers are
distinct and no session contains two records with the same signature: the
ascending overwrite fold (events variant) and the descending keep-first fold
(news variant) then store the same record under every signature. -/
theorem C10_merge_equivalence {σ α : Type} (sid : σ → Nat) (items : σ → List α)
    (sig : α → String) (getF : α → Bool) (setF : α → Bool → α)
    (heta : ∀ x, setF x (getF x) = x)
    (hget : ∀ x b, getF (setF x b) = b)
    (hss : ∀ x b b', setF (setF x b) b' = setF x b')
    (history : List σ) (hids : (history.map sid).Nodup)
    (huniq : ∀ sess ∈ history, ((items sess).map sig).Nodup) (s : String) :
    lookupA (mergeAsc sid items sig getF setF history) s
      = lookupA (mergeDesc sid items sig getF setF history) s :=
  lookupA_mergeAsc_eq_mergeDesc heta hget hss hids huniq s

/-- Witness for the amended C10 at the sample event history, whose session
identifiers are distinct and whose sessions are signature-unique. -/
theorem C10_merge_equivalence_witness :
    lookupA (mergeAsc (fun sess : EventApp.ScanSession => sess.id)
        (fun sess => sess.events) getEventSignature EventApp.getFlag
        EventApp.setFlag sampleHistory) ("pitchnight_24oct22h02h")
      = lookupA (mergeDesc (fun sess : EventApp.ScanSession => sess.id)
          (fun sess => sess.events) getEventSignature EventApp.getFlag
          EventApp.setFlag sampleHistory) ("pitchnight_24oct22h02h") :=
  C10_merge_equivalence _ _ _ _ _ eventFlag_eta eventFlag_get eventFlag_set_set
    sampleHistory (by decide) (by decide) ("pitchnight_24oct22h02h")

end StrategicRadar
